import Mathlib

/-!
Verification of the QuantiFy ingestion-and-resampling pipeline.

This file gives a shallow embedding, in Lean 4, of the core data path of the
QuantiFy backend:

* `backend/binance_websocket_client.py` — the stream client: message parsing
  (`TradeMessage`, `_parse_message`, `_handle_message`) and the reconnection
  backoff logic (`_reconnect`, `connect`);
* `backend/ingestion/data_ingestion_service.py` — the ingest buffer:
  per-symbol bounded dedup cache (`_is_duplicate`), batching (`_handle_trade`),
  and flushing (`_flush_batch`);
* `backend/resampling/resampler_service.py` — the resampler: scan-start
  selection, tick fetching (`_fetch_ticks`), OHLCV aggregation
  (`_resample_to_ohlcv`), candle persistence (`_save_candles`) and watermark
  advancement (`resample_symbol_timeframe`);
* `backend/database/models.py` — the relevant schema facts: `raw_ticks` has
  no unique constraint, `resampled_data` has a unique index on
  `(symbol, timeframe, timestamp)`.

Conventions of the embedding:

* Instants are natural numbers (epoch time in the tick-time unit of each
  model; the resampler model uses the same unit for tick times and bucket
  widths).  Python `datetime` arithmetic becomes `Nat` arithmetic.
* Python `Decimal` / SQL `Numeric` values are rationals (`ℚ`).
* Python `float` is modelled exactly: `fl` rounds a rational to the nearest
  IEEE-754 binary64 value (round-to-nearest, ties-to-even), returned as the
  exact rational it denotes.  Overflow and subnormals are irrelevant for the
  magnitudes that appear here and are not modelled.
* The durable store is a list of rows; SQLAlchemy session semantics for
  `_save_candles` (flush / IntegrityError / rollback / commit) are modelled
  explicitly by the `pending` buffer in `saveCandles`.
* Exceptions are modelled by `Option`: a Python code path that catches an
  exception and drops the message becomes a `none` result.
-/

/-! ## Stream client: parsed trade messages (binance_websocket_client.py) -/

/-- Embedding of `TradeMessage` (binance_websocket_client.py, lines 37-70):
the parsed form of one Binance trade message.  `timestamp` is the event time
`E` (Python converts it with `datetime.fromtimestamp(E / 1000)`, an injective
unit conversion which we keep in the original unit), `tradeTime` is `T`. -/
structure TradeMessage where
  timestamp : ℕ
  symbol : String
  price : ℚ
  quantity : ℚ
  tradeId : ℕ
  tradeTime : ℕ
deriving DecidableEq, Repr

/-- One inbound stream message after JSON decoding, with the combined-stream
wrapper already unwrapped: a record of the JSON fields the client reads.
`none` means the field is absent from the JSON object. -/
structure RawTradeData where
  e : Option String
  E : Option ℕ
  s : Option String
  p : Option ℚ
  q : Option ℚ
  t : Option ℕ
  T : Option ℕ
deriving DecidableEq, Repr

/-- Embedding of `BinanceWebSocketClient._parse_message`
(binance_websocket_client.py, lines 245-282) composed with the `TradeMessage`
constructor (lines 59-70): a non-`trade` event type is dropped; a missing
required field (`E`, `s`, `p`, `q`, `t`, `T`) raises `KeyError` in the
constructor, which `_parse_message` catches and turns into `None`. -/
def parseMessage (d : RawTradeData) : Option TradeMessage :=
  if d.e ≠ some "trade" then none
  else
    match d.E, d.s, d.p, d.q, d.t, d.T with
    | some eT, some sym, some pr, some qt, some tid, some tT =>
        some { timestamp := eT, symbol := sym, price := pr, quantity := qt,
               tradeId := tid, tradeTime := tT }
    | _, _, _, _, _, _ => none

/-- The statistics counters of `BinanceWebSocketClient` that `_handle_message`
touches (binance_websocket_client.py, lines 146-148). -/
structure ClientStats where
  messagesReceived : ℕ
  messagesProcessed : ℕ
  errorsCount : ℕ
deriving DecidableEq, Repr

/-- Embedding of `BinanceWebSocketClient._handle_message`
(binance_websocket_client.py, lines 284-322): bump `messages_received`, parse;
on parse failure return with no further effect; on success bump
`messages_processed` and hand the trade to the callback (the emitted trade is
returned; callback exceptions are caught and do not change the counters).
All exception paths in the Python code are caught, so the embedding is a
total function: the receive loop cannot crash on a malformed message. -/
def handleMessage (stats : ClientStats) (d : RawTradeData) :
    ClientStats × Option TradeMessage :=
  let stats := { stats with messagesReceived := stats.messagesReceived + 1 }
  match parseMessage d with
  | none => (stats, none)
  | some tr =>
      ({ stats with messagesProcessed := stats.messagesProcessed + 1 }, some tr)

/-! ## Stream client: reconnection backoff (binance_websocket_client.py) -/

/-- The backoff delay computed by `BinanceWebSocketClient._reconnect`
(binance_websocket_client.py, lines 223-227) when `reconnect_attempts` has
just been incremented to `attempt`:
`min(reconnect_delay * 2 ** (attempt - 1), max_reconnect_delay)`. -/
def backoffDelay (base maxDelay : ℚ) (attempt : ℕ) : ℚ :=
  min (base * 2 ^ (attempt - 1)) maxDelay

/-- Embedding of one `_reconnect` cycle (binance_websocket_client.py,
lines 216-243): increment the attempt counter, compute the backoff delay,
sleep, then try `connect`; `connect` resets the counter to 0 on success
(line 193, and line 241 in `_reconnect` itself).  Returns the new counter
and the delay that was slept. -/
def reconnectStep (base maxDelay : ℚ) (attempts : ℕ) (connectSucceeds : Bool) :
    ℕ × ℚ :=
  let a := attempts + 1
  let delay := backoffDelay base maxDelay a
  (if connectSucceeds then 0 else a, delay)

/-- Run a sequence of reconnection cycles with the given connect outcomes,
collecting the delay slept before each attempt. -/
def runReconnects (base maxDelay : ℚ) (attempts : ℕ) (outcomes : List Bool) :
    ℕ × List ℚ :=
  outcomes.foldl
    (fun acc ok =>
      let r := reconnectStep base maxDelay acc.1 ok
      (r.1, acc.2 ++ [r.2]))
    (attempts, [])

/-! ## IEEE-754 binary64 rounding (Python `float`)

`_fetch_ticks` (resampler_service.py, lines 261-268) converts each stored
`Numeric` value with Python's `float(...)` before pandas aggregates it, so the
resampler's arithmetic happens on binary64 values.  `fl` is the exact
rounding function: it maps a rational to the rational denoted by the nearest
binary64 value (round-to-nearest, ties-to-even).  The magnitudes in this
development are far from overflow and subnormal ranges, where `fl` agrees
with IEEE-754 exactly. -/

/-- Round a rational to the nearest integer, ties to even. -/
def rnde (x : ℚ) : ℤ :=
  if x - ⌊x⌋ < 1 / 2 then ⌊x⌋
  else if 1 / 2 < x - ⌊x⌋ then ⌊x⌋ + 1
  else if 2 ∣ ⌊x⌋ then ⌊x⌋ else ⌊x⌋ + 1

/-- Round a rational to the nearest IEEE-754 binary64 value (as an exact
rational): scale the magnitude to a 53-bit significand, round ties-to-even,
and scale back. -/
def fl (x : ℚ) : ℚ :=
  if x = 0 then 0
  else
    (if x < 0 then -1 else 1) *
      (rnde (|x| * 2 ^ ((52 : ℤ) - Int.log 2 |x|)) : ℚ) *
      2 ^ (Int.log 2 |x| - 52)

/-- One step of Kahan-compensated binary64 summation, as in pandas'
`group_sum` Cython kernel (pandas/_libs/groupby.pyx, used by
`resample(...).sum()` since pandas 1.3): with running sum `acc.1` and
compensation `acc.2`, compute `y = val - compensation`,
`t = sum + y`, `compensation = (t - sum) - y`, `sum = t`, every operation
rounded to binary64. -/
def kahanStep (acc : ℚ × ℚ) (v : ℚ) : ℚ × ℚ :=
  (fl (acc.1 + fl (v - acc.2)),
   fl (fl (fl (acc.1 + fl (v - acc.2)) - acc.1) - fl (v - acc.2)))

/-- Kahan-compensated floating-point summation: the behaviour of the
per-bucket `resample(...).sum()` aggregation.  The kernel starts from a zero
sum and zero compensation, folds `kahanStep` over the values, and returns
the running sum — the final compensation term is *not* folded back in, so
the result is compensated but still rounded. -/
def floatSum (l : List ℚ) : ℚ :=
  (l.foldl kahanStep ((0 : ℚ), (0 : ℚ))).1

/-! ## Resampler data model (database/models.py, resampler_service.py) -/

/-- A row of the `raw_ticks` table (models.py, lines 15-31).  The table has
an auto-increment `id`, `timestamp`, `symbol`, `price`, `quantity` and
`created_at`, three non-unique indexes and **no unique constraint**; in
particular it stores no exchange trade id. -/
structure RawTick where
  timestamp : ℕ
  symbol : String
  price : ℚ
  quantity : ℚ
deriving DecidableEq, Repr

/-- The index declarations of `raw_ticks` (models.py, lines 26-31), as
(name, unique) pairs, transcribed from `__table_args__`. -/
def rawTicksIndexes : List (String × Bool) :=
  [("idx_symbol_timestamp_desc", false),
   ("idx_timestamp_symbol", false),
   ("idx_created_at", false)]

/-- A row of the `resampled_data` table (models.py, lines 33-56).
`timestamp` is the bucket start.  The table has a unique index
`idx_unique_candle` on `(symbol, timeframe, timestamp)` (line 55). -/
structure Candle where
  symbol : String
  timeframe : String
  timestamp : ℕ
  openPrice : ℚ
  highPrice : ℚ
  lowPrice : ℚ
  closePrice : ℚ
  volume : ℚ
  tradeCount : ℕ
deriving DecidableEq, Repr

/-- The column triple covered by the unique index `idx_unique_candle`. -/
def candleKey (c : Candle) : String × String × ℕ :=
  (c.symbol, c.timeframe, c.timestamp)

/-- An in-memory tick as it sits in the pandas DataFrame built by
`_fetch_ticks` (resampler_service.py, lines 261-275): timestamp index plus
`float`-converted price and quantity columns. -/
structure Tick where
  time : ℕ
  price : ℚ
  quantity : ℚ
deriving DecidableEq, Repr

/-- One row of the OHLCV DataFrame produced by `_resample_to_ohlcv`
(resampler_service.py, lines 312-319): the row index (bucket start) plus the
aggregate columns. -/
structure OhlcvRow where
  bucketStart : ℕ
  openPrice : ℚ
  highPrice : ℚ
  lowPrice : ℚ
  closePrice : ℚ
  volume : ℚ
  tradeCount : ℕ
deriving DecidableEq, Repr

/-- The `TIMEFRAMES` table of `ResamplerService` (resampler_service.py,
lines 45-53), as the width in seconds of each pandas resample rule. -/
def timeframeSeconds (tf : String) : Option ℕ :=
  if tf = "1s" then some 1
  else if tf = "1m" then some 60
  else if tf = "5m" then some 300
  else if tf = "15m" then some 900
  else if tf = "1h" then some 3600
  else if tf = "4h" then some 14400
  else if tf = "1d" then some 86400
  else none

/-! ## Resampler operations (resampler_service.py) -/

/-- Embedding of `ResamplerService._fetch_ticks` (resampler_service.py,
lines 231-278): select the symbol's raw ticks with
`start_time <= timestamp <= end_time`, order by timestamp, and convert
price and quantity with Python `float(...)` (lines 264-265). -/
def fetchTicks (store : List RawTick) (sym : String) (startT endT : ℕ) :
    List Tick :=
  ((store.filter fun r =>
      r.symbol = sym ∧ startT ≤ r.timestamp ∧ r.timestamp ≤ endT).mergeSort
    (fun a b => a.timestamp ≤ b.timestamp)).map
    fun r => { time := r.timestamp, price := fl r.price, quantity := fl r.quantity }

/-- The epoch-aligned bucket start of an instant for a bucket width `w`:
pandas `resample` buckets are fixed-width intervals aligned to the epoch. -/
def bucketStartOf (w t : ℕ) : ℕ := t / w * w

/-- First element (pandas `first` aggregate) of a price column. -/
def aggFirst (l : List ℚ) : ℚ := l.headD 0

/-- Last element (pandas `last` aggregate) of a price column. -/
def aggLast (l : List ℚ) : ℚ := l.getLastD 0

/-- Maximum (pandas `max` aggregate) of a price column. -/
def aggMax (l : List ℚ) : ℚ :=
  match l with
  | [] => 0
  | x :: xs => xs.foldl max x

/-- Minimum (pandas `min` aggregate) of a price column. -/
def aggMin (l : List ℚ) : ℚ :=
  match l with
  | [] => 0
  | x :: xs => xs.foldl min x

/-- Embedding of `ResamplerService._resample_to_ohlcv` (resampler_service.py,
lines 280-328) on a time-ordered tick list: group the ticks into epoch-aligned
buckets of width `w`; per non-empty bucket take open = first price,
high = max, low = min, close = last price, volume = float sum of quantities,
trade_count = number of ticks (empty buckets are the NaN rows removed by
`dropna`, line 322); finally drop the last row — the most recent bucket —
unconditionally (line 326). -/
def resampleToOhlcv (ticks : List Tick) (w : ℕ) : List OhlcvRow :=
  let keys := (ticks.map fun t => bucketStartOf w t.time).dedup
  (keys.map fun b =>
    let g := ticks.filter fun t => bucketStartOf w t.time = b
    { bucketStart := b
      openPrice := aggFirst (g.map Tick.price)
      highPrice := aggMax (g.map Tick.price)
      lowPrice := aggMin (g.map Tick.price)
      closePrice := aggLast (g.map Tick.price)
      volume := floatSum (g.map Tick.quantity)
      tradeCount := g.length }).dropLast

/-- One flush step of the `_save_candles` session loop (resampler_service.py,
lines 349-372): build the `ResampledData` row, `session.add` + `flush` it; if
the unique index `idx_unique_candle` rejects it — its key already exists among
the committed rows (`store`) or the rows flushed earlier in this still-open
transaction (`pending`) — the raised `IntegrityError` is caught and
`session.rollback()` discards the whole uncommitted transaction, i.e. empties
`pending`; the running `saved_count` is not adjusted.  Otherwise the row joins
`pending` and `saved_count` increments.  `mkCandle` is the `ResampledData`
constructor call (lines 352-362). -/
def mkCandle (sym tf : String) (r : OhlcvRow) : Candle :=
  { symbol := sym, timeframe := tf, timestamp := r.bucketStart,
    openPrice := r.openPrice, highPrice := r.highPrice,
    lowPrice := r.lowPrice, closePrice := r.closePrice,
    volume := r.volume, tradeCount := r.tradeCount }

def saveStep (store : List Candle) (sym tf : String)
    (acc : List Candle × ℕ) (r : OhlcvRow) : List Candle × ℕ :=
  if (store ++ acc.1).any fun c => candleKey c = candleKey (mkCandle sym tf r) then
    ([], acc.2)
  else
    (acc.1 ++ [mkCandle sym tf r], acc.2 + 1)

/-- Embedding of `ResamplerService._save_candles` (resampler_service.py,
lines 330-383): iterate `saveStep` over the OHLCV rows in one session, then
`session.commit()` appends whatever is still pending to the committed store.
Returns the new committed store and the reported `saved_count`. -/
def saveCandles (store : List Candle) (sym tf : String) (rows : List OhlcvRow) :
    List Candle × ℕ :=
  (store ++ (rows.foldl (saveStep store sym tf) ([], 0)).1,
   (rows.foldl (saveStep store sym tf) ([], 0)).2)

/-- Embedding of the scan-start selection in
`ResamplerService.resample_symbol_timeframe` (resampler_service.py,
lines 191-198): `start_time = end_time - lookback`, overwritten by
`last_processed` whenever it is set. -/
def scanStart (lastProcessed : Option ℕ) (now lookbackSecs : ℕ) : ℕ :=
  match lastProcessed with
  | some t => t
  | none => now - lookbackSecs

/-- The per-(symbol, timeframe) state a `ResamplerService` carries across
runs: `last_processed_timestamp[symbol][timeframe]` and the committed
`resampled_data` rows. -/
structure ResamplerState where
  lastProcessed : Option ℕ
  candleStore : List Candle
deriving Repr

/-- Embedding of `ResamplerService.resample_symbol_timeframe`
(resampler_service.py, lines 183-229) for one symbol and timeframe of width
`w`: pick the scan start, fetch ticks in `[start, now]`, return unchanged if
none; resample; return unchanged if no complete candle; save; and if
`saved_count > 0` set `last_processed` to `ohlcv_df.index[-1]` — the bucket
start of the last computed row (line 226). -/
def runResample (st : ResamplerState) (raw : List RawTick) (sym tf : String)
    (w now lookbackSecs : ℕ) : ResamplerState :=
  if (fetchTicks raw sym (scanStart st.lastProcessed now lookbackSecs) now).isEmpty then
    st
  else if (resampleToOhlcv
      (fetchTicks raw sym (scanStart st.lastProcessed now lookbackSecs) now)
      w).isEmpty then
    st
  else if 0 < (saveCandles st.candleStore sym tf
      (resampleToOhlcv
        (fetchTicks raw sym (scanStart st.lastProcessed now lookbackSecs) now)
        w)).2 then
    { lastProcessed :=
        ((resampleToOhlcv
            (fetchTicks raw sym (scanStart st.lastProcessed now lookbackSecs)
              now) w).getLast?.map OhlcvRow.bucketStart).orElse
          fun _ => st.lastProcessed
      candleStore :=
        (saveCandles st.candleStore sym tf
          (resampleToOhlcv
            (fetchTicks raw sym (scanStart st.lastProcessed now lookbackSecs)
              now) w)).1 }
  else
    { st with
      candleStore :=
        (saveCandles st.candleStore sym tf
          (resampleToOhlcv
            (fetchTicks raw sym (scanStart st.lastProcessed now lookbackSecs)
              now) w)).1 }

/-! ## Ingest buffer (ingestion/data_ingestion_service.py) -/

/-- The capacity of the per-symbol recent-trade dedup cache:
`deque(maxlen=1000)` (data_ingestion_service.py, line 115). -/
def dedupCapacity : ℕ := 1000

/-- The key the dedup cache stores: `(trade.symbol, trade.trade_id,
trade.timestamp)` (data_ingestion_service.py, line 150). -/
def tradeKey (t : TradeMessage) : String × ℕ × ℕ :=
  (t.symbol, t.tradeId, t.timestamp)

/-- The `RawTicks` row `_handle_trade` builds from a trade
(data_ingestion_service.py, lines 177-182): note that the exchange trade id
is *not* stored. -/
def tradeRow (t : TradeMessage) : RawTick :=
  { timestamp := t.timestamp, symbol := t.symbol,
    price := t.price, quantity := t.quantity }

/-- Append to a `deque(maxlen=cap)`: when the deque is full the oldest
(leftmost) entry is evicted. -/
def pushBounded (cap : ℕ) (l : List (String × ℕ × ℕ)) (k : String × ℕ × ℕ) :
    List (String × ℕ × ℕ) :=
  if cap < (l ++ [k]).length then (l ++ [k]).tail else l ++ [k]

/-- The state of a `DataIngestionService` relevant to deduplication and
persistence: the per-symbol dedup deques (`seen_trades`), the current batch,
the committed `raw_ticks` rows, and the duplicate counter.  `seenTrades` is a
total function; the Python dict only has entries for configured symbols (an
unconfigured symbol raises inside `_handle_trade` and the trade is dropped),
and all trades considered here are for configured symbols. -/
structure IngestState where
  seenTrades : String → List (String × ℕ × ℕ)
  currentBatch : List RawTick
  rawStore : List RawTick
  totalDuplicates : ℕ

/-- The state of a freshly constructed service: empty deques, empty batch,
over an empty store. -/
def initIngestState : IngestState :=
  { seenTrades := fun _ => [], currentBatch := [], rawStore := [],
    totalDuplicates := 0 }

/-- Embedding of `DataIngestionService._flush_batch` (data_ingestion_service.py,
lines 197-260) on the happy path: the bulk insert `session.add_all` +
`commit`.  Because `raw_ticks` has **no unique constraint**
(models.py, lines 15-31), the insert cannot raise `IntegrityError` for
duplicate rows: every batch member is appended to the store, and the batch
is cleared. -/
def flushBatch (st : IngestState) : IngestState :=
  { st with rawStore := st.rawStore ++ st.currentBatch, currentBatch := [] }

/-- Embedding of `DataIngestionService._is_duplicate` +
`DataIngestionService._handle_trade` (data_ingestion_service.py,
lines 136-195) with deduplication enabled: drop the trade and count a
duplicate when its key is in the symbol's deque; otherwise record the key
(evicting the oldest when the deque is full), append the row to the batch,
and flush when the batch has reached `batch_size`. -/
def handleTrade (batchSize : ℕ) (st : IngestState) (t : TradeMessage) :
    IngestState :=
  if tradeKey t ∈ st.seenTrades t.symbol then
    { st with totalDuplicates := st.totalDuplicates + 1 }
  else
    let st' : IngestState :=
      { st with
        seenTrades := Function.update st.seenTrades t.symbol
          (pushBounded dedupCapacity (st.seenTrades t.symbol) (tradeKey t))
        currentBatch := st.currentBatch ++ [tradeRow t] }
    if batchSize ≤ st'.currentBatch.length then flushBatch st' else st'

/-- An event delivered to the ingest buffer: a trade from the stream-client
callback, or a timer-driven (or shutdown) flush. -/
inductive IngestOp where
  | trade (t : TradeMessage)
  | flush
deriving Repr

/-- Process one ingest event. -/
def ingestStep (batchSize : ℕ) (st : IngestState) : IngestOp → IngestState
  | .trade t => handleTrade batchSize st t
  | .flush => flushBatch st

/-- Process a sequence of ingest events in order. -/
def runIngest (batchSize : ℕ) (st : IngestState) (ops : List IngestOp) :
    IngestState :=
  ops.foldl (ingestStep batchSize) st

/-- All rows a state holds, durable or still buffered: the committed
`raw_ticks` rows plus the current batch. -/
def allRows (st : IngestState) : List RawTick :=
  st.rawStore ++ st.currentBatch

/-! ## Helper lemmas -/

theorem mem_fetchTicks_of_mem {raw : List RawTick} {sym : String}
    {startT endT : ℕ} {r : RawTick} (hmem : r ∈ raw) (hsym : r.symbol = sym)
    (h1 : startT ≤ r.timestamp) (h2 : r.timestamp ≤ endT) :
    ∃ tk ∈ fetchTicks raw sym startT endT, tk.time = r.timestamp :=
  by
  refine ⟨{ time := r.timestamp, price := fl r.price, quantity := fl r.quantity },
    ?_, rfl⟩
  unfold fetchTicks
  refine List.mem_map_of_mem _ ?_
  have hperm := List.mergeSort_perm
    (raw.filter fun x =>
      decide (x.symbol = sym ∧ startT ≤ x.timestamp ∧ x.timestamp ≤ endT))
    (fun a b => a.timestamp ≤ b.timestamp)
  refine hperm.mem_iff.mpr ?_
  simp only [List.mem_filter, decide_eq_true_eq]
  exact ⟨hmem, hsym, h1, h2⟩

theorem runReconnects_replicate_false (base maxDelay : ℚ) :
    ∀ (n a : ℕ) (ds : List ℚ),
      (List.replicate n false).foldl
        (fun acc ok =>
          let r := reconnectStep base maxDelay acc.1 ok
          (r.1, acc.2 ++ [r.2])) (a, ds) =
      (a + n, ds ++ (List.range n).map fun i => backoffDelay base maxDelay (a + i + 1)) :=
  by
  intro n
  induction n with
  | zero => intro a ds; simp
  | succ n ih =>
    intro a ds
    rw [List.replicate_succ, List.foldl_cons]
    have hstep :
        (let r := reconnectStep base maxDelay (a, ds).1 false
         (r.1, (a, ds).2 ++ [r.2])) =
        ((a + 1, ds ++ [backoffDelay base maxDelay (a + 1)]) : ℕ × List ℚ) := by
      simp [reconnectStep]
    rw [hstep, ih (a + 1)]
    simp only [Prod.mk.injEq]
    constructor
    · omega
    · rw [List.range_succ_eq_map, List.append_assoc]
      simp only [List.singleton_append, List.map_cons, List.map_map,
        Function.comp_def, Nat.add_zero]
      refine congrArg _ (congrArg _ (List.map_congr_left fun i _ => ?_))
      congr 1
      omega

/-! ## C5: scan-start selection -/

/-- C5, counterexample.  The claim states that with `lastProcessed` set the
scan start is `max(lastProcessed, now − lookbackWindow)`.  With
`lastProcessed = 0`, `now = 7200` and a 3600-second lookback the code scans
from `0`, not from `max 0 (7200 − 3600) = 3600`: `resample_symbol_timeframe`
overwrites the lookback bound with `last_processed` unconditionally
(resampler_service.py, lines 196-198). -/
theorem C5_scanstart_counterexample :
    scanStart (some 0) 7200 3600 ≠ max 0 (7200 - 3600) := by decide

/-- C5, amended.  At the start of a run for a (symbol, timeframe) whose
`lastProcessed` value is set, the scan start equals `lastProcessed` itself —
the lookback window does not bound catch-up after a gap — and a stored tick
of the symbol whose event time equals that (possibly very old) scan start is
fetched by the run; on cold start the scan start is `now − lookbackWindow`. -/
theorem C5_scanstart_amended (t now lb : ℕ) (raw : List RawTick)
    (sym : String) (r : RawTick) (hmem : r ∈ raw) (hsym : r.symbol = sym)
    (ht : r.timestamp = t) (hle : t ≤ now) :
    scanStart (some t) now lb = t ∧
    scanStart none now lb = now - lb ∧
    ∃ tk ∈ fetchTicks raw sym (scanStart (some t) now lb) now, tk.time = t :=
  by
  refine ⟨rfl, rfl, ?_⟩
  have h := @mem_fetchTicks_of_mem raw sym t now r hmem hsym
    (le_of_eq ht.symm) (ht ▸ hle)
  simpa [scanStart, ht] using h

/-- C5, witness for the amended theorem at a concrete input: a tick at time
0, `now = 7200`, lookback 3600. -/
theorem C5_scanstart_amended_witness :
    scanStart (some 0) 7200 3600 = 0 ∧
    ∃ tk ∈ fetchTicks [{ timestamp := 0, symbol := "B", price := 1, quantity := 1 }]
      "B" (scanStart (some 0) 7200 3600) 7200, tk.time = 0 :=
  by
  have h := C5_scanstart_amended 0 7200 3600
    [{ timestamp := 0, symbol := "B", price := 1, quantity := 1 }] "B"
    { timestamp := 0, symbol := "B", price := 1, quantity := 1 }
    (by simp) rfl rfl (by omega)
  exact ⟨h.1, h.2.2⟩

/-! ## C8: reconnection backoff -/

/-- C8, confirmed.  With base delay `base ≥ 0` capped at `maxDelay ≥ base`
(the code defaults are 5 and 60 seconds): (1) over `n` consecutive
reconnection failures starting from a reset counter, the delay before the
`i+1`-st attempt is `min(base · 2^i, maxDelay)`; (2) the delay is
non-decreasing in the attempt number; (3) from a reset counter — the state
after any successful connection — the next delay is exactly `base`; and
(4) any cycle ending in a successful connection resets the counter to 0. -/
theorem C8_backoff_monotone_resets (base maxDelay : ℚ) (n : ℕ)
    (h0 : 0 ≤ base) (h1 : base ≤ maxDelay) :
    ((runReconnects base maxDelay 0 (List.replicate n false)).2 =
      (List.range n).map fun i => min (base * 2 ^ i) maxDelay) ∧
    (∀ i j : ℕ, i ≤ j →
      backoffDelay base maxDelay i ≤ backoffDelay base maxDelay j) ∧
    (∀ ok : Bool, (reconnectStep base maxDelay 0 ok).2 = base) ∧
    (∀ (outcomes : List Bool) (a : ℕ),
      (runReconnects base maxDelay a (outcomes ++ [true])).1 = 0) :=
  by
  refine ⟨?_, ?_, ?_, ?_⟩
  · unfold runReconnects
    rw [runReconnects_replicate_false]
    simp only [List.nil_append]
    refine List.map_congr_left fun i _ => ?_
    simp [backoffDelay]
  · intro i j hij
    unfold backoffDelay
    refine min_le_min ?_ le_rfl
    exact mul_le_mul_of_nonneg_left
      (pow_le_pow_right₀ one_le_two (by omega)) h0
  · intro ok
    simp [reconnectStep, backoffDelay, min_eq_left h1]
  · intro outcomes a
    unfold runReconnects
    rw [List.foldl_append]
    simp [reconnectStep]

/-- C8, witness at the code's default configuration (base 5 s, cap 60 s) and
three consecutive failures: delays are 5, 10, 20, and one reconnect cycle
from a reset counter sleeps exactly 5 s. -/
theorem C8_backoff_witness :
    (0:ℚ) ≤ 5 ∧ (5:ℚ) ≤ 60 ∧
    ((runReconnects 5 60 0 (List.replicate 3 false)).2 =
      (List.range 3).map fun i => min ((5:ℚ) * 2 ^ i) 60) ∧
    (reconnectStep 5 60 0 false).2 = 5 :=
  by
  have h := C8_backoff_monotone_resets 5 60 3 (by norm_num) (by norm_num)
  exact ⟨by norm_num, by norm_num, h.1, h.2.2.1 false⟩

/-! ## C10: malformed stream messages -/

theorem parseMessage_eq_none_of_missing {d : RawTradeData}
    (hmiss : d.E = none ∨ d.s = none ∨ d.p = none ∨ d.q = none ∨
      d.t = none ∨ d.T = none) :
    parseMessage d = none :=
  by
  obtain ⟨de, dE, ds, dp, dq, dt, dT⟩ := d
  unfold parseMessage
  by_cases he : de = some "trade"
  · cases dE <;> cases ds <;> cases dp <;> cases dq <;> cases dt <;>
      cases dT <;> simp_all
  · simp [he]

/-- C10, amended.  An inbound `trade` message missing any required field
(`E`, `s`, `p`, `q`, `t`, `T` — event time, symbol, price, quantity, trade
id, trade time) fails to parse and is dropped without producing a
TradeEvent; `messages_received` is incremented and processing continues
(`handleMessage` is a total function, so the receive loop cannot crash) —
but, contrary to the claim, the error counter is *not* incremented:
`_parse_message` only logs the `KeyError` and `_handle_message` returns
before any counter other than `messages_received` is touched. -/
theorem C10_parse_failure_amended (stats : ClientStats) (d : RawTradeData)
    (hmiss : d.E = none ∨ d.s = none ∨ d.p = none ∨ d.q = none ∨
      d.t = none ∨ d.T = none) :
    handleMessage stats d =
      ({ stats with messagesReceived := stats.messagesReceived + 1 }, none) :=
  by
  unfold handleMessage
  rw [parseMessage_eq_none_of_missing hmiss]

/-- C10, witness for the amended theorem: a `trade` message with the price
field `p` absent, starting from zeroed counters, yields no trade and the
state `(received, processed, errors) = (1, 0, 0)`. -/
theorem C10_parse_failure_amended_witness :
    handleMessage ⟨0, 0, 0⟩
      { e := some "trade", E := some 1672515782136, s := some "BTCUSDT",
        p := none, q := some (1/1000), t := some 12345,
        T := some 1672515782136 } = (⟨1, 0, 0⟩, none) :=
  by
  have h := C10_parse_failure_amended ⟨0, 0, 0⟩
    { e := some "trade", E := some 1672515782136, s := some "BTCUSDT",
      p := none, q := some (1/1000), t := some 12345,
      T := some 1672515782136 }
    (Or.inr (Or.inr (Or.inl rfl)))
  simpa using h

/-- C10, counterexample to the claim as stated.  The claim requires the
error counter to be incremented when a required field is missing.  Handling
a `trade` message with no price field from zeroed counters leaves
`errors_count` at 0 (and `messages_processed` at 0, with no TradeEvent
produced): the code never increments `errors_count` on a parse failure. -/
theorem C10_error_counter_counterexample :
    ((handleMessage ⟨0, 0, 0⟩
      { e := some "trade", E := some 1672515782136, s := some "BTCUSDT",
        p := none, q := some (1/1000), t := some 12345,
        T := some 1672515782136 }).1.errorsCount = 0) ∧
    ((handleMessage ⟨0, 0, 0⟩
      { e := some "trade", E := some 1672515782136, s := some "BTCUSDT",
        p := none, q := some (1/1000), t := some 12345,
        T := some 1672515782136 }).2 = none) :=
  by
  constructor <;> simp [handleMessage, parseMessage]

/-! ## C2: idempotent resampling -/

theorem saveCandles_pending_twice (S : List Candle) (sym tf : String)
    (rows : List OhlcvRow) :
    (rows.foldl
      (saveStep (S ++ (rows.foldl (saveStep S sym tf) ([], 0)).1) sym tf)
      ([], 0)).1 = [] :=
  by
  rcases List.eq_nil_or_concat rows with rfl | ⟨rs, z, hrows⟩
  · simp
  · rw [List.concat_eq_append] at hrows
    subst hrows
    simp only [List.foldl_append, List.foldl_cons, List.foldl_nil]
    set accS := List.foldl (saveStep S sym tf) ([], 0) rs with hAccS
    by_cases hc : ((S ++ accS.1).any fun c =>
        candleKey c = candleKey (mkCandle sym tf z)) = true
    · have h1 : saveStep S sym tf accS z = ([], accS.2) := by
        simp only [saveStep, if_pos hc]
      rw [h1]
      simp only [List.append_nil]
      rw [← hAccS, h1]
    · have h1 : saveStep S sym tf accS z =
          (accS.1 ++ [mkCandle sym tf z], accS.2 + 1) := by
        simp only [saveStep, if_neg hc]
      rw [h1]
      have hcond : ∀ pend : List Candle,
          (((S ++ (accS.1 ++ [mkCandle sym tf z])) ++ pend).any fun c =>
            candleKey c = candleKey (mkCandle sym tf z)) = true := by
        intro pend
        rw [List.any_eq_true]
        exact ⟨mkCandle sym tf z, by simp, by simp⟩
      simp only [saveStep, if_pos (hcond _)]

/-- C2, confirmed.  For any symbol, timeframe and fixed raw-tick store, let
one resampler pass compute the candle batch for a scan range and persist it
with `_save_candles`.  Running the identical pass a second time over the same
unchanged raw-tick range recomputes the same batch (the aggregation is a
function of the fetched ticks) and the second `_save_candles` leaves the
candle store exactly as the first left it: it inserts zero new rows — every
row of the recomputed batch either conflicts with the store on
`(symbol, timeframe, bucketStart)` and is skipped, or is wiped from the open
transaction by a later conflict's rollback before the final commit. -/
theorem C2_resampler_idempotent (raw : List RawTick) (store : List Candle)
    (sym tf : String) (w startT endT : ℕ) :
    (saveCandles
      (saveCandles store sym tf
        (resampleToOhlcv (fetchTicks raw sym startT endT) w)).1 sym tf
      (resampleToOhlcv (fetchTicks raw sym startT endT) w)).1 =
    (saveCandles store sym tf
      (resampleToOhlcv (fetchTicks raw sym startT endT) w)).1 :=
  by
  unfold saveCandles
  simp only [saveCandles_pending_twice, List.append_nil]

/-! ## C3: duplicate candles inside one batch -/

/-- The store fixture for C3: the candle for bucket 60 already persisted. -/
def c3Existing : Candle :=
  { symbol := "BTCUSDT", timeframe := "1m", timestamp := 60,
    openPrice := 1, highPrice := 1, lowPrice := 1, closePrice := 1,
    volume := 1, tradeCount := 1 }

/-- The batch fixture for C3: computed candles for buckets 0, 60, 120, of
which only bucket 60 conflicts with the store. -/
def c3Rows : List OhlcvRow :=
  [{ bucketStart := 0, openPrice := 1, highPrice := 1, lowPrice := 1,
     closePrice := 1, volume := 1, tradeCount := 1 },
   { bucketStart := 60, openPrice := 1, highPrice := 1, lowPrice := 1,
     closePrice := 1, volume := 1, tradeCount := 1 },
   { bucketStart := 120, openPrice := 1, highPrice := 1, lowPrice := 1,
     closePrice := 1, volume := 1, tradeCount := 1 }]

/-- C3, the divergence evaluated.  Persisting the batch
(buckets 0, 60, 120) against a store already holding bucket 60:
the claim requires both non-conflicting candles (buckets 0 and 120) to be
durably written.  The code commits only bucket 120 — the `IntegrityError`
on bucket 60 rolls back the open transaction, discarding the already-flushed
bucket-0 insert — while `saved_count` still reports 2.  The bug contradicts
the function's own intent (`# Commit all successful inserts`, and its
docstring `Returns: Number of candles saved`). -/
theorem C3_rollback_loses_prior_candles :
    ((saveCandles [c3Existing] "BTCUSDT" "1m" c3Rows).1.map candleKey =
      [("BTCUSDT", "1m", 60), ("BTCUSDT", "1m", 120)]) ∧
    (saveCandles [c3Existing] "BTCUSDT" "1m" c3Rows).2 = 2 ∧
    ¬ ("BTCUSDT", "1m", (0:ℕ)) ∈
      (saveCandles [c3Existing] "BTCUSDT" "1m" c3Rows).1.map candleKey :=
  by
  refine ⟨?_, ?_, ?_⟩ <;>
    simp [saveCandles, saveStep, c3Existing, c3Rows, mkCandle, candleKey]

/-! ## Evaluation lemmas for `rnde` and `fl` -/

theorem rnde_eq_floor {x : ℚ} {n : ℤ} (hn : ⌊x⌋ = n) (h : x - n < 1 / 2) :
    rnde x = n := by
  unfold rnde
  rw [hn, if_pos h]

theorem rnde_eq_floor_add_one {x : ℚ} {n : ℤ} (hn : ⌊x⌋ = n)
    (h : 1 / 2 < x - n) : rnde x = n + 1 := by
  unfold rnde
  rw [hn, if_neg (by linarith), if_pos h]

theorem rnde_eq_tie_odd {x : ℚ} {n : ℤ} (hn : ⌊x⌋ = n) (h : x - n = 1 / 2)
    (hodd : ¬ 2 ∣ n) : rnde x = n + 1 := by
  unfold rnde
  rw [hn, if_neg (by rw [h]; exact lt_irrefl _), if_neg (by rw [h]; exact lt_irrefl _), if_neg hodd]

theorem fl_eval_pos {q v : ℚ} {e m : ℤ} (h0 : 0 < q)
    (hle : (2 : ℚ) ^ e ≤ q) (hlt : q < (2 : ℚ) ^ (e + 1))
    (hm : rnde (q * 2 ^ ((52 : ℤ) - e)) = m)
    (hv : (m : ℚ) * 2 ^ (e - 52) = v) :
    fl q = v := by
  have hb : (1 : ℕ) < 2 := one_lt_two
  have hlog : Int.log 2 q = e := by
    have hle' : e ≤ Int.log 2 q :=
      (Int.zpow_le_iff_le_log hb h0).mp (by exact_mod_cast hle)
    have hlt' : Int.log 2 q < e + 1 :=
      (Int.lt_zpow_iff_log_lt hb h0).mp (by exact_mod_cast hlt)
    omega
  unfold fl
  rw [if_neg h0.ne', if_neg (not_lt.mpr h0.le), abs_of_pos h0, hlog, hm, one_mul,
    hv]

theorem fl_one_tenth : fl (1 / 10) = 3602879701896397 / 36028797018963968 := by
  refine fl_eval_pos (e := -4) (m := 7205759403792794)
    (by norm_num) (by norm_num) (by norm_num) ?_ (by norm_num)
  refine rnde_eq_floor_add_one (n := 7205759403792793) ?_ (by norm_num)
  rw [Int.floor_eq_iff]
  constructor <;> norm_num

theorem fl_inv_ten : fl (10⁻¹ : ℚ) = 3602879701896397 / 36028797018963968 := by
  rw [← one_div]
  exact fl_one_tenth

theorem fl_two_tenths : fl (2 / 10) = 3602879701896397 / 18014398509481984 := by
  refine fl_eval_pos (e := -3) (m := 7205759403792794)
    (by norm_num) (by norm_num) (by norm_num) ?_ (by norm_num)
  refine rnde_eq_floor_add_one (n := 7205759403792793) ?_ (by norm_num)
  rw [Int.floor_eq_iff]
  constructor <;> norm_num

theorem fl_three_tenths : fl (3 / 10) = 5404319552844595 / 18014398509481984 := by
  refine fl_eval_pos (e := -2) (m := 5404319552844595)
    (by norm_num) (by norm_num) (by norm_num) ?_ (by norm_num)
  refine rnde_eq_floor (n := 5404319552844595) ?_ (by norm_num)
  rw [Int.floor_eq_iff]
  constructor <;> norm_num

theorem fl_sum12 : fl (10808639105689191 / 36028797018963968) = 1351079888211149 / 4503599627370496 := by
  refine fl_eval_pos (e := -2) (m := 5404319552844596)
    (by norm_num) (by norm_num) (by norm_num) ?_ (by norm_num)
  refine rnde_eq_tie_odd (n := 5404319552844595) ?_ (by norm_num) (by decide)
  rw [Int.floor_eq_iff]
  constructor <;> norm_num

theorem fl_hundred : fl (100) = 100 := by
  refine fl_eval_pos (e := 6) (m := 7036874417766400)
    (by norm_num) (by norm_num) (by norm_num) ?_ (by norm_num)
  refine rnde_eq_floor (n := 7036874417766400) ?_ (by norm_num)
  rw [Int.floor_eq_iff]
  constructor <;> norm_num

theorem fl_hundred_five : fl (105) = 105 := by
  refine fl_eval_pos (e := 6) (m := 7388718138654720)
    (by norm_num) (by norm_num) (by norm_num) ?_ (by norm_num)
  refine rnde_eq_floor (n := 7388718138654720) ?_ (by norm_num)
  rw [Int.floor_eq_iff]
  constructor <;> norm_num

theorem fl_ninety_five : fl (95) = 95 := by
  refine fl_eval_pos (e := 6) (m := 6685030696878080)
    (by norm_num) (by norm_num) (by norm_num) ?_ (by norm_num)
  refine rnde_eq_floor (n := 6685030696878080) ?_ (by norm_num)
  rw [Int.floor_eq_iff]
  constructor <;> norm_num

theorem fl_hundred_two : fl (102) = 102 := by
  refine fl_eval_pos (e := 6) (m := 7177611906121728)
    (by norm_num) (by norm_num) (by norm_num) ?_ (by norm_num)
  refine rnde_eq_floor (n := 7177611906121728) ?_ (by norm_num)
  rw [Int.floor_eq_iff]
  constructor <;> norm_num

theorem fl_one : fl (1) = 1 := by
  refine fl_eval_pos (e := 0) (m := 4503599627370496)
    (by norm_num) (by norm_num) (by norm_num) ?_ (by norm_num)
  refine rnde_eq_floor (n := 4503599627370496) ?_ (by norm_num)
  rw [Int.floor_eq_iff]
  constructor <;> norm_num

theorem fl_two : fl (2) = 2 := by
  refine fl_eval_pos (e := 1) (m := 4503599627370496)
    (by norm_num) (by norm_num) (by norm_num) ?_ (by norm_num)
  refine rnde_eq_floor (n := 4503599627370496) ?_ (by norm_num)
  rw [Int.floor_eq_iff]
  constructor <;> norm_num

theorem fl_three : fl (3) = 3 := by
  refine fl_eval_pos (e := 1) (m := 6755399441055744)
    (by norm_num) (by norm_num) (by norm_num) ?_ (by norm_num)
  refine rnde_eq_floor (n := 6755399441055744) ?_ (by norm_num)
  rw [Int.floor_eq_iff]
  constructor <;> norm_num

theorem fl_four : fl (4) = 4 := by
  refine fl_eval_pos (e := 2) (m := 4503599627370496)
    (by norm_num) (by norm_num) (by norm_num) ?_ (by norm_num)
  refine rnde_eq_floor (n := 4503599627370496) ?_ (by norm_num)
  rw [Int.floor_eq_iff]
  constructor <;> norm_num

theorem fl_six : fl (6) = 6 := by
  refine fl_eval_pos (e := 2) (m := 6755399441055744)
    (by norm_num) (by norm_num) (by norm_num) ?_ (by norm_num)
  refine rnde_eq_floor (n := 6755399441055744) ?_ (by norm_num)
  rw [Int.floor_eq_iff]
  constructor <;> norm_num

theorem fl_zero : fl 0 = 0 := by
  unfold fl
  simp

theorem fl_fix_tenth : fl (3602879701896397 / 36028797018963968) =
    3602879701896397 / 36028797018963968 := by
  refine fl_eval_pos (e := -4) (m := 7205759403792794)
    (by norm_num) (by norm_num) (by norm_num) ?_ (by norm_num)
  refine rnde_eq_floor (n := 7205759403792794) ?_ (by norm_num)
  rw [Int.floor_eq_iff]
  constructor <;> norm_num

theorem fl_fix_two_tenths : fl (3602879701896397 / 18014398509481984) =
    3602879701896397 / 18014398509481984 := by
  refine fl_eval_pos (e := -3) (m := 7205759403792794)
    (by norm_num) (by norm_num) (by norm_num) ?_ (by norm_num)
  refine rnde_eq_floor (n := 7205759403792794) ?_ (by norm_num)
  rw [Int.floor_eq_iff]
  constructor <;> norm_num

theorem fl_fix_comp : fl (1801439850948199 / 18014398509481984) =
    1801439850948199 / 18014398509481984 := by
  refine fl_eval_pos (e := -4) (m := 7205759403792796)
    (by norm_num) (by norm_num) (by norm_num) ?_ (by norm_num)
  refine rnde_eq_floor (n := 7205759403792796) ?_ (by norm_num)
  rw [Int.floor_eq_iff]
  constructor <;> norm_num

theorem fl_eps55 : fl (1 / 36028797018963968) = 1 / 36028797018963968 := by
  refine fl_eval_pos (e := -55) (m := 4503599627370496)
    (by norm_num) (by norm_num) (by norm_num) ?_ (by norm_num)
  refine rnde_eq_floor (n := 4503599627370496) ?_ (by norm_num)
  rw [Int.floor_eq_iff]
  constructor <;> norm_num

theorem kahan_step_one : kahanStep (0 : ℚ × ℚ) 1 = (1, 0) := by
  norm_num [kahanStep, fl_one, fl_zero]

theorem kahan_step_two : kahanStep ((1 : ℚ), (0 : ℚ)) 2 = (3, 0) := by
  norm_num [kahanStep, fl_two, fl_three, fl_zero]

theorem kahan_step_three : kahanStep ((3 : ℚ), (0 : ℚ)) 3 = (6, 0) := by
  norm_num [kahanStep, fl_three, fl_six, fl_zero]

theorem kahan_step_tenth1 : kahanStep (0 : ℚ × ℚ)
    (3602879701896397 / 36028797018963968) =
    (3602879701896397 / 36028797018963968, 0) := by
  norm_num [kahanStep, fl_fix_tenth, fl_zero]

theorem kahan_step_tenth2 :
    kahanStep ((3602879701896397 / 36028797018963968 : ℚ), (0 : ℚ))
      (3602879701896397 / 36028797018963968) =
    (3602879701896397 / 18014398509481984, 0) := by
  norm_num [kahanStep, fl_fix_tenth, fl_fix_two_tenths, fl_zero]

theorem kahan_step_tenth3 :
    kahanStep ((3602879701896397 / 18014398509481984 : ℚ), (0 : ℚ))
      (3602879701896397 / 36028797018963968) =
    (1351079888211149 / 4503599627370496, 1 / 36028797018963968) := by
  norm_num [kahanStep, fl_fix_tenth, fl_sum12, fl_fix_comp, fl_eps55]

/-! ## C7: OHLCV correctness on the concrete scenario -/

/-- The raw ticks of the C7 scenario: `BTCUSDT` trades at t = 0 s (price 100,
quantity 1), 20 s (105, 2), 45 s (95, 3) and 61 s (102, 4). -/
def c7Raw : List RawTick :=
  [{ timestamp := 0, symbol := "BTCUSDT", price := 100, quantity := 1 },
   { timestamp := 20, symbol := "BTCUSDT", price := 105, quantity := 2 },
   { timestamp := 45, symbol := "BTCUSDT", price := 95, quantity := 3 },
   { timestamp := 61, symbol := "BTCUSDT", price := 102, quantity := 4 }]

theorem c7_fetch_eval :
    fetchTicks c7Raw "BTCUSDT" 0 3600 =
      [{ time := 0, price := 100, quantity := 1 },
       { time := 20, price := 105, quantity := 2 },
       { time := 45, price := 95, quantity := 3 },
       { time := 61, price := 102, quantity := 4 }] := by
  simp [fetchTicks, c7Raw, List.mergeSort, fl_hundred, fl_hundred_five,
    fl_ninety_five, fl_hundred_two, fl_one, fl_two, fl_three, fl_four]

theorem c7_resample_eval :
    resampleToOhlcv
      [{ time := 0, price := 100, quantity := 1 },
       { time := 20, price := 105, quantity := 2 },
       { time := 45, price := 95, quantity := 3 },
       { time := 61, price := 102, quantity := 4 }] 60 =
      [{ bucketStart := 0, openPrice := 100, highPrice := 105, lowPrice := 95,
         closePrice := 95, volume := 6, tradeCount := 3 }] := by
  have hkeys : ([0, 0, 0, 60] : List ℕ).dedup = [0, 60] := by decide
  norm_num [resampleToOhlcv, bucketStartOf, hkeys, aggFirst, aggMax, aggMin,
    aggLast, floatSum, kahan_step_one, kahan_step_two, kahan_step_three]

/-- C7, confirmed.  For the concrete scenario — `BTCUSDT` ticks at
t = 0 s price 100 quantity 1, t = 20 s price 105 quantity 2,
t = 45 s price 95 quantity 3, t = 61 s price 102 quantity 4, timeframe `1m`
(width 60 s) — one resampler run from a cold state over a window covering the
ticks persists exactly one candle: `bucketStart = 0`, `open = 100` (first
tick's price), `high = 105` (max), `low = 95` (min), `close = 95` (price of
the last tick inside the bucket), `volume = 6 = 1 + 2 + 3` (sum of the first
three quantities), `tradeCount = 3`.  The t = 61 s tick's bucket is the most
recent one and is discarded as still open.  Buckets are epoch-aligned via
`bucketStartOf`, and the per-bucket aggregates are first/max/min/last/sum/
count, as the general definition `resampleToOhlcv` shows. -/
theorem C7_ohlcv_correctness :
    timeframeSeconds "1m" = some 60 ∧
    (runResample { lastProcessed := none, candleStore := [] } c7Raw
        "BTCUSDT" "1m" 60 3600 3600).candleStore =
      [{ symbol := "BTCUSDT", timeframe := "1m", timestamp := 0,
         openPrice := 100, highPrice := 105, lowPrice := 95, closePrice := 95,
         volume := 6, tradeCount := 3 }] := by
  refine ⟨by decide, ?_⟩
  have hstart : scanStart none 3600 3600 = 0 := by decide
  unfold runResample
  rw [hstart, c7_fetch_eval, c7_resample_eval]
  norm_num [saveCandles, saveStep, mkCandle, candleKey]

/-! ## Helper lemmas about fetch, aggregation and bucket keys -/

theorem fetchTicks_mem_inv {raw : List RawTick} {sym : String} {a b : ℕ}
    {tk : Tick} (h : tk ∈ fetchTicks raw sym a b) :
    ∃ rt ∈ raw, tk =
      { time := rt.timestamp, price := fl rt.price, quantity := fl rt.quantity } := by
  unfold fetchTicks at h
  obtain ⟨rt, hrt, heq⟩ := List.mem_map.mp h
  have hperm := List.mergeSort_perm
    (raw.filter fun x =>
      decide (x.symbol = sym ∧ a ≤ x.timestamp ∧ x.timestamp ≤ b))
    (fun a b => a.timestamp ≤ b.timestamp)
  have hrt' := hperm.mem_iff.mp hrt
  exact ⟨rt, (List.mem_filter.mp hrt').1, heq.symm⟩

theorem foldl_max_mem : ∀ (xs : List ℚ) (x : ℚ), xs.foldl max x ∈ x :: xs := by
  intro xs
  induction xs with
  | nil => intro x; simp
  | cons y ys ih =>
    intro x
    have h := ih (max x y)
    simp only [List.foldl_cons]
    rcases List.mem_cons.mp h with h | h
    · rw [h]; rcases max_choice x y with hm | hm <;> rw [hm] <;> simp
    · simp [h]

theorem foldl_min_mem : ∀ (xs : List ℚ) (x : ℚ), xs.foldl min x ∈ x :: xs := by
  intro xs
  induction xs with
  | nil => intro x; simp
  | cons y ys ih =>
    intro x
    have h := ih (min x y)
    simp only [List.foldl_cons]
    rcases List.mem_cons.mp h with h | h
    · rw [h]; rcases min_choice x y with hm | hm <;> rw [hm] <;> simp
    · simp [h]

theorem aggMax_mem {l : List ℚ} (h : l ≠ []) : aggMax l ∈ l := by
  match l with
  | [] => exact absurd rfl h
  | x :: xs => exact foldl_max_mem xs x

theorem aggMin_mem {l : List ℚ} (h : l ≠ []) : aggMin l ∈ l := by
  match l with
  | [] => exact absurd rfl h
  | x :: xs => exact foldl_min_mem xs x

theorem aggFirst_mem {l : List ℚ} (h : l ≠ []) : aggFirst l ∈ l := by
  match l with
  | [] => exact absurd rfl h
  | x :: xs => simp [aggFirst]

theorem aggLast_mem {l : List ℚ} (h : l ≠ []) : aggLast l ∈ l := by
  unfold aggLast
  rw [List.getLastD_eq_getLast? , List.getLast?_eq_getLast l h]
  simp [List.getLast_mem]

/-- Any row of `resampleToOhlcv` comes from a non-empty bucket group of the
input ticks and its fields are the aggregates of that group. -/
theorem resampleToOhlcv_mem_inv {ticks : List Tick} {w : ℕ} {r : OhlcvRow}
    (h : r ∈ resampleToOhlcv ticks w) :
    ∃ b, b ∈ (ticks.map fun t => bucketStartOf w t.time).dedup ∧
      (ticks.filter fun t => bucketStartOf w t.time = b) ≠ [] ∧
      r = { bucketStart := b
            openPrice := aggFirst
              ((ticks.filter fun t => bucketStartOf w t.time = b).map Tick.price)
            highPrice := aggMax
              ((ticks.filter fun t => bucketStartOf w t.time = b).map Tick.price)
            lowPrice := aggMin
              ((ticks.filter fun t => bucketStartOf w t.time = b).map Tick.price)
            closePrice := aggLast
              ((ticks.filter fun t => bucketStartOf w t.time = b).map Tick.price)
            volume := floatSum
              ((ticks.filter fun t => bucketStartOf w t.time = b).map Tick.quantity)
            tradeCount :=
              (ticks.filter fun t => bucketStartOf w t.time = b).length } := by
  unfold resampleToOhlcv at h
  have h' := List.dropLast_sublist _ |>.mem h
  obtain ⟨b, hb, heq⟩ := List.mem_map.mp h'
  refine ⟨b, hb, ?_, heq.symm⟩
  have hbm : b ∈ ticks.map fun t => bucketStartOf w t.time :=
    List.mem_dedup.mp hb
  obtain ⟨t, ht, htb⟩ := List.mem_map.mp hbm
  have : t ∈ ticks.filter fun t => bucketStartOf w t.time = b := by
    rw [List.mem_filter]
    exact ⟨ht, by simp [htb]⟩
  exact List.ne_nil_of_mem this

theorem fetchTicks_time_sorted (raw : List RawTick) (sym : String) (a b : ℕ) :
    List.Pairwise (fun t1 t2 : Tick => t1.time ≤ t2.time)
      (fetchTicks raw sym a b) := by
  unfold fetchTicks
  rw [List.pairwise_map]
  have hs := @List.sorted_mergeSort RawTick
    (fun r1 r2 : RawTick => decide (r1.timestamp ≤ r2.timestamp))
    (fun x y z hxy hyz => by
      simp only [decide_eq_true_eq] at *
      omega)
    (fun x y => by
      simp only [Bool.or_eq_true, decide_eq_true_eq]
      omega)
    (raw.filter fun x =>
      decide (x.symbol = sym ∧ a ≤ x.timestamp ∧ x.timestamp ≤ b))
  exact hs.imp fun h => by simpa using h

theorem bucketKeys_sorted_lt (ticks : List Tick) (w : ℕ)
    (hs : List.Pairwise (fun t1 t2 : Tick => t1.time ≤ t2.time) ticks) :
    List.Pairwise (· < ·)
      ((ticks.map fun t => bucketStartOf w t.time).dedup) := by
  have hle : List.Pairwise (· ≤ ·)
      (ticks.map fun t => bucketStartOf w t.time) := by
    rw [List.pairwise_map]
    refine hs.imp fun h => ?_
    unfold bucketStartOf
    exact Nat.mul_le_mul_right w (Nat.div_le_div_right h)
  have hle' : List.Pairwise (· ≤ ·)
      ((ticks.map fun t => bucketStartOf w t.time).dedup) :=
    List.Pairwise.sublist (List.dedup_sublist _) hle
  have hne : List.Pairwise (· ≠ ·)
      ((ticks.map fun t => bucketStartOf w t.time).dedup) :=
    List.nodup_dedup _
  exact (hle'.and hne).imp fun h => lt_of_le_of_ne h.1 h.2

theorem pairwise_rel_getLast? {α : Type} {R : α → α → Prop} :
    ∀ {l : List α} {m : α}, List.Pairwise R l → l.getLast? = some m →
      ∀ x ∈ l.dropLast, R x m := by
  intro l
  induction l with
  | nil => intro m _ hm; simp at hm
  | cons a t ih =>
    intro m hp hm x hx
    match t with
    | [] => simp at hx
    | b :: t' =>
      rw [List.getLast?_cons_cons] at hm
      rw [List.dropLast_cons_of_ne_nil (by simp), List.mem_cons] at hx
      rcases hx with rfl | hx
      · have hmem : m ∈ b :: t' := List.mem_of_getLast?_eq_some hm
        exact (List.pairwise_cons.mp hp).1 m hmem
      · exact ih (List.pairwise_cons.mp hp).2 hm x hx

theorem pairwise_rel_getLast?_of_mem {α : Type} {R : α → α → Prop} :
    ∀ {l : List α} {m : α}, List.Pairwise R l → l.getLast? = some m →
      ∀ x ∈ l, x = m ∨ R x m := by
  intro l
  induction l with
  | nil => intro m _ hm; simp at hm
  | cons a t ih =>
    intro m hp hm x hx
    match t with
    | [] =>
      simp only [List.getLast?_singleton, Option.some.injEq] at hm
      simp only [List.mem_singleton] at hx
      exact Or.inl (hm ▸ hx)
    | b :: t' =>
      rw [List.getLast?_cons_cons] at hm
      rcases List.mem_cons.mp hx with rfl | hx
      · have hmem : m ∈ b :: t' := List.mem_of_getLast?_eq_some hm
        exact Or.inr ((List.pairwise_cons.mp hp).1 m hmem)
      · exact ih (List.pairwise_cons.mp hp).2 hm x hx

theorem bucket_lt_add_le {w x y : ℕ}
    (h : bucketStartOf w x < bucketStartOf w y) :
    bucketStartOf w x + w ≤ bucketStartOf w y := by
  unfold bucketStartOf at *
  have hdiv : x / w < y / w := by
    by_contra hc
    push_neg at hc
    exact absurd (Nat.mul_le_mul_right w hc) (by omega)
  calc x / w * w + w = (x / w + 1) * w := by ring
  _ ≤ y / w * w := Nat.mul_le_mul_right w (by omega)

theorem dedup_all_eq {α : Type} [DecidableEq α] :
    ∀ l : List α, (∀ x ∈ l, ∀ y ∈ l, x = y) →
      l.dedup = [] ∨ ∃ a, l.dedup = [a] := by
  intro l
  induction l with
  | nil => intro _; exact Or.inl rfl
  | cons a t ih =>
    intro h
    by_cases hm : a ∈ t
    · rw [List.dedup_cons_of_mem hm]
      exact ih fun x hx y hy => h x (List.mem_cons_of_mem a hx) y
        (List.mem_cons_of_mem a hy)
    · have ht : t = [] := by
        by_contra hne
        obtain ⟨x, hx⟩ := List.exists_mem_of_ne_nil t hne
        exact hm (h x (List.mem_cons_of_mem a hx) a (List.mem_cons_self a t) ▸ hx)
      subst ht
      exact Or.inr ⟨a, by simp⟩

/-! ## C6: no partial-bucket leakage -/

/-- C6, confirmed.  In every resampler pass, the most recent bucket of the
fetched ticks is dropped before persisting, so (1) every computed candle's
bucket lies strictly before the bucket of some fetched tick — equivalently, a
candle for bucket start `s` is only produced once a tick with event time
`≥ s + w` (at or beyond the bucket's end boundary, i.e. in a later bucket)
has been observed — and (2) if all fetched ticks fall into a single bucket,
the pass produces no candle at all. -/
theorem C6_no_partial_bucket (raw : List RawTick) (sym : String)
    (a b w : ℕ) (_hw : 0 < w) :
    (∀ r ∈ resampleToOhlcv (fetchTicks raw sym a b) w,
      ∃ t ∈ fetchTicks raw sym a b, r.bucketStart + w ≤ t.time) ∧
    ((∀ t1 ∈ fetchTicks raw sym a b, ∀ t2 ∈ fetchTicks raw sym a b,
        bucketStartOf w t1.time = bucketStartOf w t2.time) →
      resampleToOhlcv (fetchTicks raw sym a b) w = []) := by
  constructor
  · intro r hr
    unfold resampleToOhlcv at hr
    rw [← List.map_dropLast] at hr
    obtain ⟨bb, hbb, heq⟩ := List.mem_map.mp hr
    have hbkeys : bb ∈ (((fetchTicks raw sym a b).map
        fun t => bucketStartOf w t.time).dedup) :=
      (List.dropLast_sublist _).mem hbb
    have hne : (((fetchTicks raw sym a b).map
        fun t => bucketStartOf w t.time).dedup) ≠ [] :=
      List.ne_nil_of_mem hbkeys
    obtain ⟨m, hm⟩ := Option.isSome_iff_exists.mp
      (List.getLast?_isSome.mpr hne)
    have hsorted := bucketKeys_sorted_lt (fetchTicks raw sym a b) w
      (fetchTicks_time_sorted raw sym a b)
    have hlt : bb < m := pairwise_rel_getLast? hsorted hm bb hbb
    have hmmem := List.mem_of_getLast?_eq_some hm
    obtain ⟨t, ht, htm⟩ := List.mem_map.mp (List.mem_dedup.mp hmmem)
    obtain ⟨x, hx, hxb⟩ := List.mem_map.mp (List.mem_dedup.mp hbkeys)
    refine ⟨t, ht, ?_⟩
    have h1 : bb + w ≤ m := by
      rw [← hxb, ← htm]
      exact bucket_lt_add_le (by rw [hxb, htm]; exact hlt)
    have h2 : m ≤ t.time := by
      rw [← htm]
      exact Nat.div_mul_le_self _ _
    have hrb : r.bucketStart = bb := by rw [← heq]
    omega
  · intro hall
    unfold resampleToOhlcv
    have h1 := dedup_all_eq ((fetchTicks raw sym a b).map
      fun t => bucketStartOf w t.time)
      (by
        intro x hx y hy
        obtain ⟨t1, ht1, rfl⟩ := List.mem_map.mp hx
        obtain ⟨t2, ht2, rfl⟩ := List.mem_map.mp hy
        exact hall t1 ht1 t2 ht2)
    rcases h1 with h1 | ⟨k, h1⟩ <;> rw [h1] <;> simp

/-- C6, witness: two `B` ticks at t = 0 s and t = 30 s both fall in the
single 1-minute bucket starting at 0, and the run produces no candle. -/
theorem C6_no_partial_bucket_witness :
    (0:ℕ) < 60 ∧
    resampleToOhlcv
      (fetchTicks
        [{ timestamp := 0, symbol := "B", price := 1, quantity := 1 },
         { timestamp := 30, symbol := "B", price := 1, quantity := 1 }]
        "B" 0 100) 60 = [] := by
  have hfetch : fetchTicks
      [{ timestamp := 0, symbol := "B", price := 1, quantity := 1 },
       { timestamp := 30, symbol := "B", price := 1, quantity := 1 }]
      "B" 0 100 =
      [{ time := 0, price := 1, quantity := 1 },
       { time := 30, price := 1, quantity := 1 }] := by
    simp [fetchTicks, List.mergeSort, fl_one]
  refine ⟨by norm_num, ?_⟩
  refine (C6_no_partial_bucket _ "B" 0 100 60 (by norm_num)).2 ?_
  rw [hfetch]
  intro t1 ht1 t2 ht2
  simp only [List.mem_cons, List.mem_singleton, List.not_mem_nil, or_false]
    at ht1 ht2
  rcases ht1 with rfl | rfl <;> rcases ht2 with rfl | rfl <;> rfl

/-! ## C4: watermark advancement -/

/-- The raw ticks of the C4 scenario: `B` ticks at t = 0 s and t = 61 s, so
one 1-minute candle (bucket `[0, 60)`) is computed and persisted. -/
def c4Raw : List RawTick :=
  [{ timestamp := 0, symbol := "B", price := 1, quantity := 1 },
   { timestamp := 61, symbol := "B", price := 1, quantity := 1 }]

theorem c4_fetch_eval :
    fetchTicks c4Raw "B" 0 100 =
      [{ time := 0, price := 1, quantity := 1 },
       { time := 61, price := 1, quantity := 1 }] := by
  simp [fetchTicks, c4Raw, List.mergeSort, fl_one]

theorem c4_resample_eval :
    resampleToOhlcv
      [{ time := 0, price := 1, quantity := 1 },
       { time := 61, price := 1, quantity := 1 }] 60 =
      [{ bucketStart := 0, openPrice := 1, highPrice := 1, lowPrice := 1,
         closePrice := 1, volume := 1, tradeCount := 1 }] := by
  have hkeys : ([0, 60] : List ℕ).dedup = [0, 60] := by decide
  norm_num [resampleToOhlcv, bucketStartOf, hkeys, aggFirst, aggMax, aggMin,
    aggLast, floatSum, kahan_step_one]

/-- C4, counterexample.  The claim states that after a run persisting at
least one candle, `lastProcessed` equals the *end* boundary of the last
persisted bucket.  A run over `B` ticks at t = 0 s and t = 61 s with
timeframe width 60 s persists the bucket `[0, 60)` and sets
`lastProcessed = 0` — the bucket's start (`ohlcv_df.index[-1]`,
resampler_service.py line 226) — not its end boundary 60. -/
theorem C4_watermark_counterexample :
    (runResample { lastProcessed := none, candleStore := [] } c4Raw
      "B" "1m" 60 100 100).lastProcessed = some 0 ∧
    (some (0:ℕ)) ≠ some (0 + 60) := by
  have hstart : scanStart none 100 100 = 0 := by decide
  refine ⟨?_, by decide⟩
  unfold runResample
  rw [hstart, c4_fetch_eval, c4_resample_eval]
  norm_num [saveCandles, saveStep, mkCandle, candleKey]

/-- C4, amended.  After any resampler run that persists at least one candle
for a (symbol, timeframe), `lastProcessed[symbol][timeframe]` equals the
bucket *start* of the last computed complete candle (not the bucket's end
boundary and not the current time); that bucket start is the largest among
the run's computed candles, so the next run re-scans from the last persisted
bucket's start and never skips a boundary tick (it re-reads the whole last
bucket, whose candle then deduplicates against the store). -/
theorem C4_watermark_amended (st : ResamplerState) (raw : List RawTick)
    (sym tf : String) (w now lb : ℕ)
    (hsaved : 0 < (saveCandles st.candleStore sym tf
      (resampleToOhlcv
        (fetchTicks raw sym (scanStart st.lastProcessed now lb) now) w)).2) :
    ∃ r : OhlcvRow,
      (resampleToOhlcv
        (fetchTicks raw sym (scanStart st.lastProcessed now lb) now)
        w).getLast? = some r ∧
      (runResample st raw sym tf w now lb).lastProcessed =
        some r.bucketStart ∧
      ∀ r' ∈ resampleToOhlcv
          (fetchTicks raw sym (scanStart st.lastProcessed now lb) now) w,
        r'.bucketStart ≤ r.bucketStart := by
  have hrows : resampleToOhlcv
      (fetchTicks raw sym (scanStart st.lastProcessed now lb) now) w ≠ [] := by
    intro h
    rw [h] at hsaved
    simp [saveCandles] at hsaved
  have hticks : (fetchTicks raw sym (scanStart st.lastProcessed now lb) now)
      ≠ [] := by
    intro h
    apply hrows
    rw [h]
    rfl
  obtain ⟨r, hr⟩ := Option.isSome_iff_exists.mp
    (List.getLast?_isSome.mpr hrows)
  refine ⟨r, hr, ?_, ?_⟩
  · unfold runResample
    rw [if_neg (by simp [hticks]), if_neg (by simp [hrows]), if_pos hsaved, hr]
    rfl
  · have hsorted := bucketKeys_sorted_lt
      (fetchTicks raw sym (scanStart st.lastProcessed now lb) now) w
      (fetchTicks_time_sorted raw sym _ now)
    have hrowsp : List.Pairwise
        (fun r1 r2 : OhlcvRow => r1.bucketStart ≤ r2.bucketStart)
        (resampleToOhlcv
          (fetchTicks raw sym (scanStart st.lastProcessed now lb) now) w) := by
      unfold resampleToOhlcv
      refine List.Pairwise.sublist (List.dropLast_sublist _) ?_
      rw [List.pairwise_map]
      exact hsorted.imp fun h => le_of_lt h
    intro r' hr'
    rcases pairwise_rel_getLast?_of_mem hrowsp hr r' hr' with rfl | h
    · exact le_rfl
    · exact h

/-- C4, witness for the amended theorem at the concrete C4 scenario: the run
persists one candle (`saved_count = 1 > 0`) and sets `lastProcessed` to
bucket start 0. -/
theorem C4_watermark_amended_witness :
    0 < (saveCandles ([] : List Candle) "B" "1m"
      (resampleToOhlcv (fetchTicks c4Raw "B" (scanStart none 100 100) 100)
        60)).2 ∧
    ∃ r : OhlcvRow,
      (resampleToOhlcv (fetchTicks c4Raw "B" (scanStart none 100 100) 100)
        60).getLast? = some r ∧
      (runResample { lastProcessed := none, candleStore := [] } c4Raw
        "B" "1m" 60 100 100).lastProcessed = some r.bucketStart ∧
      ∀ r' ∈ resampleToOhlcv
          (fetchTicks c4Raw "B" (scanStart none 100 100) 100) 60,
        r'.bucketStart ≤ r.bucketStart := by
  have hstart : scanStart none 100 100 = 0 := by decide
  have hsaved : 0 < (saveCandles ([] : List Candle) "B" "1m"
      (resampleToOhlcv (fetchTicks c4Raw "B" (scanStart none 100 100) 100)
        60)).2 := by
    rw [hstart, c4_fetch_eval, c4_resample_eval]
    norm_num [saveCandles, saveStep, mkCandle, candleKey]
  exact ⟨hsaved,
    C4_watermark_amended { lastProcessed := none, candleStore := [] } c4Raw
      "B" "1m" 60 100 100 hsaved⟩

/-! ## C9: numeric semantics of the aggregation -/

/-- The raw ticks of the C9 scenario: one closed `BTCUSDT` bucket with
quantity 0.1 (an exact decimal) traded three times, plus a later tick
closing the bucket. -/
def c9Raw : List RawTick :=
  [{ timestamp := 0, symbol := "BTCUSDT", price := 100, quantity := 1/10 },
   { timestamp := 20, symbol := "BTCUSDT", price := 100, quantity := 1/10 },
   { timestamp := 45, symbol := "BTCUSDT", price := 100, quantity := 1/10 },
   { timestamp := 61, symbol := "BTCUSDT", price := 100, quantity := 4 }]

theorem c9_fetch_eval :
    fetchTicks c9Raw "BTCUSDT" 0 3600 =
      [{ time := 0, price := 100, quantity := 3602879701896397 / 36028797018963968 },
       { time := 20, price := 100, quantity := 3602879701896397 / 36028797018963968 },
       { time := 45, price := 100, quantity := 3602879701896397 / 36028797018963968 },
       { time := 61, price := 100, quantity := 4 }] := by
  simp [fetchTicks, c9Raw, List.mergeSort, fl_hundred, fl_one_tenth,
    fl_inv_ten, fl_four]

theorem c9_volume_eval :
    (resampleToOhlcv (fetchTicks c9Raw "BTCUSDT" 0 3600) 60).map
      OhlcvRow.volume = [1351079888211149 / 4503599627370496] := by
  rw [c9_fetch_eval]
  have hkeys : ([0, 0, 0, 60] : List ℕ).dedup = [0, 60] := by decide
  norm_num [resampleToOhlcv, bucketStartOf, hkeys, floatSum,
    kahan_step_tenth1, kahan_step_tenth2, kahan_step_tenth3]

/-- C9, counterexample.  The claim states that all aggregation arithmetic is
performed in fixed-precision decimal on the full-precision stored values, so
persisted candle values are exact.  In fact `_fetch_ticks` converts every
stored decimal with Python `float(...)` and pandas aggregates binary64
values (the `resample(...).sum()` kernel uses Kahan-compensated summation,
modelled exactly by `kahanStep`/`floatSum`, which rounds every operation and
drops the final compensation term).  For stored quantities 0.1, 0.1, 0.1 the
computed bucket volume is `1351079888211149 / 4503599627370496` (the
binary64 value printed `0.30000000000000004` — what Python prints for
`0.1 + 0.1 + 0.1`), which differs from the exact decimal sum `3/10`;
moreover `fl (3/10)` differs from the computed volume, so *no* decimal that
round-trips to the computed float — in particular the value persisted via
`Decimal(str(...))` (resampler_service.py, line 360), since Python's
`str` on a float is shortest-round-trip — can equal the exact sum 0.3. -/
theorem C9_float_counterexample :
    ((resampleToOhlcv (fetchTicks c9Raw "BTCUSDT" 0 3600) 60).map
      OhlcvRow.volume = [1351079888211149 / 4503599627370496]) ∧
    (1351079888211149 / 4503599627370496 : ℚ) ≠ 1/10 + 1/10 + 1/10 ∧
    fl (1/10 + 1/10 + 1/10) ≠ (1351079888211149 / 4503599627370496 : ℚ) := by
  refine ⟨c9_volume_eval, by norm_num, ?_⟩
  have h : (1/10 + 1/10 + 1/10 : ℚ) = 3/10 := by norm_num
  rw [h, fl_three_tenths]
  norm_num

/-- C9, amended.  The resampler's aggregation arithmetic is performed in
binary64 floating point on `float(...)`-converted tick values, not in
fixed-precision decimal: open/high/low/close of every computed candle are
each the single float conversion `fl` of some stored tick's decimal price
(a selection, exact precisely when that price is binary64-representable),
while volume is a compensated but still rounded floating-point sum of the
converted quantities and can differ from the exact decimal sum (quantities
0.1 + 0.1 + 0.1 are persisted as 0.30000000000000004, not 0.3). -/
theorem C9_float_amended (raw : List RawTick) (sym : String) (a b w : ℕ)
    (r : OhlcvRow) (hr : r ∈ resampleToOhlcv (fetchTicks raw sym a b) w) :
    (∃ rt ∈ raw, r.openPrice = fl rt.price) ∧
    (∃ rt ∈ raw, r.highPrice = fl rt.price) ∧
    (∃ rt ∈ raw, r.lowPrice = fl rt.price) ∧
    (∃ rt ∈ raw, r.closePrice = fl rt.price) := by
  obtain ⟨bb, hbb, hg, heq⟩ := resampleToOhlcv_mem_inv hr
  have hgm : ((fetchTicks raw sym a b).filter
      fun t => bucketStartOf w t.time = bb).map Tick.price ≠ [] := by
    simpa using hg
  have hsub : ∀ p ∈ ((fetchTicks raw sym a b).filter
      fun t => bucketStartOf w t.time = bb).map Tick.price,
      ∃ rt ∈ raw, p = fl rt.price := by
    intro p hp
    obtain ⟨tk, htk, hptk⟩ := List.mem_map.mp hp
    obtain ⟨rt, hrt, hteq⟩ := fetchTicks_mem_inv (List.mem_filter.mp htk).1
    exact ⟨rt, hrt, by rw [← hptk, hteq]⟩
  subst heq
  exact ⟨hsub _ (aggFirst_mem hgm), hsub _ (aggMax_mem hgm),
    hsub _ (aggMin_mem hgm), hsub _ (aggLast_mem hgm)⟩

/-- The single candle row of the two-tick `B` pipeline: all aggregates 1. -/
def unitRow : OhlcvRow :=
  { bucketStart := 0, openPrice := 1, highPrice := 1, lowPrice := 1,
    closePrice := 1, volume := 1, tradeCount := 1 }

/-- C9, witness for the amended theorem: in the tiny pipeline with `B` ticks
at t = 0 s and t = 61 s, the single computed candle's OHLC values are `fl`
of stored tick prices. -/
theorem C9_float_amended_witness :
    unitRow ∈ resampleToOhlcv (fetchTicks c4Raw "B" 0 100) 60 ∧
    ∃ rt ∈ c4Raw, unitRow.highPrice = fl rt.price := by
  have hmem : unitRow ∈ resampleToOhlcv (fetchTicks c4Raw "B" 0 100) 60 := by
    rw [c4_fetch_eval, c4_resample_eval]
    simp [unitRow]
  exact ⟨hmem,
    (C9_float_amended c4Raw "B" 0 100 60 _ hmem).2.1⟩

/-! ## C1: helper theory for the bounded dedup deque -/

/-- The last `cap` elements of a list: the contents of a `deque(maxlen=cap)`
after pushing the whole list in order. -/
def lastCap {α : Type} (cap : ℕ) (l : List α) : List α :=
  l.drop (l.length - cap)

theorem lastCap_length_le {α : Type} (cap : ℕ) (l : List α) :
    (lastCap cap l).length ≤ cap := by
  unfold lastCap
  rw [List.length_drop]
  omega

theorem mem_of_mem_lastCap {α : Type} {cap : ℕ} {l : List α} {x : α}
    (h : x ∈ lastCap cap l) : x ∈ l :=
  List.mem_of_mem_drop h

theorem pushBounded_eq_lastCap {cap : ℕ} {l : List (String × ℕ × ℕ)}
    {k : String × ℕ × ℕ} (hlen : l.length ≤ cap) :
    pushBounded cap l k = lastCap cap (l ++ [k]) := by
  unfold pushBounded lastCap
  rw [List.length_append, List.length_singleton]
  by_cases h : cap < l.length + 1
  · rw [if_pos h]
    have h1 : l.length = cap := by omega
    have h2 : l.length + 1 - cap = 1 := by omega
    rw [h2, List.drop_one]
  · rw [if_neg h]
    have h2 : l.length + 1 - cap = 0 := by omega
    rw [h2, List.drop_zero]

theorem lastCap_append_lastCap {α : Type} (cap : ℕ) (l r : List α) :
    lastCap cap (lastCap cap l ++ r) = lastCap cap (l ++ r) := by
  unfold lastCap
  rw [List.length_append, List.length_drop, List.length_append,
    List.drop_append_eq_append_drop, List.drop_append_eq_append_drop,
    List.drop_drop, List.length_drop]
  congr 1
  · congr 1
    omega
  · congr 1
    omega

theorem suffix_lastCap {α : Type} {cap : ℕ} {s l : List α}
    (h : s <:+ l) (hlen : s.length ≤ cap) : s <:+ lastCap cap l := by
  obtain ⟨pre, hpre⟩ := h
  unfold lastCap
  subst hpre
  rw [List.length_append, List.drop_append_eq_append_drop]
  have h1 : pre.length + s.length - cap - pre.length = 0 := by omega
  rw [h1, List.drop_zero]
  exact List.suffix_append _ _

/-! ## C1: step lemmas for the ingest buffer -/

theorem allRows_flushBatch (st : IngestState) :
    allRows (flushBatch st) = allRows st := by
  unfold allRows flushBatch
  simp

theorem seen_flushBatch (st : IngestState) :
    (flushBatch st).seenTrades = st.seenTrades := rfl

theorem handleTrade_dup {bs : ℕ} {st : IngestState} {t : TradeMessage}
    (h : tradeKey t ∈ st.seenTrades t.symbol) :
    handleTrade bs st t = { st with totalDuplicates := st.totalDuplicates + 1 } := by
  unfold handleTrade
  rw [if_pos h]

theorem handleTrade_new_seen {bs : ℕ} {st : IngestState} {t : TradeMessage}
    (h : tradeKey t ∉ st.seenTrades t.symbol) :
    (handleTrade bs st t).seenTrades = Function.update st.seenTrades t.symbol
      (pushBounded dedupCapacity (st.seenTrades t.symbol) (tradeKey t)) := by
  unfold handleTrade
  rw [if_neg h]
  by_cases hb : bs ≤ st.currentBatch.length + 1
  · rw [if_pos (by simpa using hb)]
    rfl
  · rw [if_neg (by simpa using hb)]

theorem handleTrade_new_rows {bs : ℕ} {st : IngestState} {t : TradeMessage}
    (h : tradeKey t ∉ st.seenTrades t.symbol) :
    allRows (handleTrade bs st t) = allRows st ++ [tradeRow t] := by
  unfold handleTrade
  rw [if_neg h]
  by_cases hb : bs ≤ st.currentBatch.length + 1
  · rw [if_pos (by simpa using hb)]
    unfold allRows flushBatch
    simp
  · rw [if_neg (by simpa using hb)]
    unfold allRows
    simp

theorem handleTrade_seen_other {bs : ℕ} {st : IngestState} {t : TradeMessage}
    {s : String} (h : t.symbol ≠ s) :
    (handleTrade bs st t).seenTrades s = st.seenTrades s := by
  by_cases hd : tradeKey t ∈ st.seenTrades t.symbol
  · rw [handleTrade_dup hd]
  · rw [handleTrade_new_seen hd, Function.update_noteq (Ne.symm h)]

theorem handleTrade_count_le {bs : ℕ} {st : IngestState} {t : TradeMessage}
    (row : RawTick) :
    (allRows (handleTrade bs st t)).count row ≤ (allRows st).count row + 1 := by
  by_cases hd : tradeKey t ∈ st.seenTrades t.symbol
  · rw [handleTrade_dup hd]
    exact Nat.le_succ_of_le le_rfl
  · rw [handleTrade_new_rows hd, List.count_append]
    have : (([tradeRow t]).count row) ≤ 1 := by
      by_cases he : tradeRow t = row <;> simp [List.count_singleton', he]
    omega

theorem handleTrade_count_other {bs : ℕ} {st : IngestState} {t : TradeMessage}
    {row : RawTick} (h : tradeRow t ≠ row) :
    (allRows (handleTrade bs st t)).count row = (allRows st).count row := by
  by_cases hd : tradeKey t ∈ st.seenTrades t.symbol
  · rw [handleTrade_dup hd]
    rfl
  · rw [handleTrade_new_rows hd, List.count_append]
    simp [List.count_singleton', h]

theorem count_stable (bs : ℕ) (row : RawTick) :
    ∀ (ops : List IngestOp) (st : IngestState),
      (∀ t', IngestOp.trade t' ∈ ops → tradeRow t' ≠ row) →
      (allRows (runIngest bs st ops)).count row = (allRows st).count row := by
  intro ops
  induction ops with
  | nil => intro st _; rfl
  | cons op rest ih =>
    intro st hops
    match op with
    | IngestOp.flush =>
      have h1 : runIngest bs st (IngestOp.flush :: rest) =
          runIngest bs (flushBatch st) rest := rfl
      rw [h1, ih (flushBatch st)
        (fun t' ht' => hops t' (List.mem_cons_of_mem _ ht')),
        allRows_flushBatch]
    | IngestOp.trade t =>
      have h1 : runIngest bs st (IngestOp.trade t :: rest) =
          runIngest bs (handleTrade bs st t) rest := rfl
      rw [h1, ih (handleTrade bs st t)
        (fun t' ht' => hops t' (List.mem_cons_of_mem _ ht'))]
      exact handleTrade_count_other (hops t (List.mem_cons_self _ _))

/-- Does an ingest event carry a trade for symbol `s`?  (Used to count the
pushes a symbol's dedup deque can receive.) -/
def isSymTrade (s : String) : IngestOp → Bool
  | IngestOp.trade t' => t'.symbol == s
  | IngestOp.flush => false

theorem suffix_singleton_pushBounded {cap : ℕ} (hcap : 0 < cap)
    (l : List (String × ℕ × ℕ)) (k : String × ℕ × ℕ) :
    [k] <:+ pushBounded cap l k := by
  unfold pushBounded
  by_cases h : cap < (l ++ [k]).length
  · rw [if_pos h]
    match l with
    | [] => simp at h; omega
    | a :: l' =>
      rw [List.cons_append, List.tail_cons]
      exact List.suffix_append _ _
  · rw [if_neg h]
    exact List.suffix_append _ _

theorem survive_mid (bs : ℕ) (s : String) (k : String × ℕ × ℕ) :
    ∀ (ops : List IngestOp) (st : IngestState),
      (∀ t', IngestOp.trade t' ∈ ops → tradeKey t' ≠ k) →
      (st.seenTrades s).length ≤ dedupCapacity →
      (∃ l2, (k :: l2) <:+ st.seenTrades s ∧
        l2.length + 1 + ops.countP (isSymTrade s) ≤ dedupCapacity) →
      k ∈ (runIngest bs st ops).seenTrades s := by
  intro ops
  induction ops with
  | nil =>
    intro st _ _ h
    obtain ⟨l2, hsuf, _⟩ := h
    exact hsuf.subset (List.mem_cons_self _ _)
  | cons op rest ih =>
    intro st hkey hlen h
    obtain ⟨l2, hsuf, hbud⟩ := h
    rw [List.countP_cons] at hbud
    match op with
    | IngestOp.flush =>
      have h1 : runIngest bs st (IngestOp.flush :: rest) =
          runIngest bs (flushBatch st) rest := rfl
      rw [h1]
      refine ih (flushBatch st)
        (fun t' ht' => hkey t' (List.mem_cons_of_mem _ ht')) hlen
        ⟨l2, hsuf, ?_⟩
      simpa [isSymTrade] using hbud
    | IngestOp.trade f =>
      have h1 : runIngest bs st (IngestOp.trade f :: rest) =
          runIngest bs (handleTrade bs st f) rest := rfl
      rw [h1]
      by_cases hd : tradeKey f ∈ st.seenTrades f.symbol
      · rw [handleTrade_dup hd]
        refine ih _ (fun t' ht' => hkey t' (List.mem_cons_of_mem _ ht'))
          hlen ⟨l2, hsuf, ?_⟩
        omega
      · by_cases hsym : f.symbol = s
        · have hupd : (handleTrade bs st f).seenTrades s =
              pushBounded dedupCapacity (st.seenTrades s) (tradeKey f) := by
            rw [handleTrade_new_seen hd, ← hsym, Function.update_same, hsym]
          have hcountf : isSymTrade s (IngestOp.trade f) = true := by
            simp [isSymTrade, hsym]
          simp only [hcountf, if_true] at hbud
          have hbud1 : l2.length + 2 + rest.countP (isSymTrade s) ≤
              dedupCapacity := by omega
          refine ih (handleTrade bs st f)
            (fun t' ht' => hkey t' (List.mem_cons_of_mem _ ht')) ?_
            ⟨l2 ++ [tradeKey f], ?_, ?_⟩
          · rw [hupd, pushBounded_eq_lastCap hlen]
            exact lastCap_length_le _ _
          · rw [hupd, pushBounded_eq_lastCap hlen]
            have hsuf2 : (k :: l2) ++ [tradeKey f] <:+
                st.seenTrades s ++ [tradeKey f] := by
              obtain ⟨pre, hpre⟩ := hsuf
              exact ⟨pre, by rw [← List.append_assoc, hpre]⟩
            have hlen2 : ((k :: l2) ++ [tradeKey f]).length ≤ dedupCapacity := by
              simp only [List.length_append, List.length_cons,
                List.length_singleton, List.length_nil]
              omega
            have := suffix_lastCap hsuf2 hlen2
            simpa using this
          · simp only [List.length_append, List.length_singleton,
              List.length_cons, List.length_nil]
            omega
        · have hseen : (handleTrade bs st f).seenTrades s = st.seenTrades s :=
            handleTrade_seen_other hsym
          have hcountf : isSymTrade s (IngestOp.trade f) = false := by
            simp [isSymTrade, hsym]
          simp only [hcountf, Bool.false_eq_true, if_false] at hbud
          refine ih (handleTrade bs st f)
            (fun t' ht' => hkey t' (List.mem_cons_of_mem _ ht')) ?_
            ⟨l2, ?_, ?_⟩
          · rw [hseen]; exact hlen
          · rw [hseen]; exact hsuf
          · omega

/-- C1, amended.  Two TradeEvents with identical
`(symbol, exchangeTradeId, eventTime)` produce at most one stored raw-tick
row *provided* fewer than 1000 trades of that symbol are handled between
them — the capacity of the per-symbol dedup deque.  The raw-tick store
itself has no unique constraint (and stores no trade id at all), so the
bounded in-memory cache is the only dedup mechanism; batch boundaries
(`flush` events) in any position do not affect the guarantee.  The state
`st0` is any state not already containing the tick's row whose deque for the
symbol is within capacity (both hold for every reachable state before the
first of the two events arrives, in particular for the initial state). -/
theorem C1_dedup_amended (bs : ℕ) (st0 : IngestState) (e : TradeMessage)
    (mid : List IngestOp)
    (hcount0 : (allRows st0).count (tradeRow e) = 0)
    (hlen0 : (st0.seenTrades e.symbol).length ≤ dedupCapacity)
    (hmidkey : ∀ t', IngestOp.trade t' ∈ mid → tradeKey t' ≠ tradeKey e)
    (hmidrow : ∀ t', IngestOp.trade t' ∈ mid → tradeRow t' ≠ tradeRow e)
    (hmidcount : mid.countP (isSymTrade e.symbol) + 1 ≤ dedupCapacity) :
    (allRows (runIngest bs st0
      (IngestOp.trade e :: (mid ++ [IngestOp.trade e])))).count (tradeRow e)
      ≤ 1 := by
  have h1 : runIngest bs st0 (IngestOp.trade e :: (mid ++ [IngestOp.trade e]))
      = handleTrade bs (runIngest bs (handleTrade bs st0 e) mid) e := by
    unfold runIngest
    rw [List.foldl_cons, List.foldl_append, List.foldl_cons, List.foldl_nil]
    rfl
  rw [h1]
  by_cases hdup0 : tradeKey e ∈ st0.seenTrades e.symbol
  · have hst1rows : allRows (handleTrade bs st0 e) = allRows st0 := by
      rw [handleTrade_dup hdup0]
      rfl
    have hmid : (allRows (runIngest bs (handleTrade bs st0 e) mid)).count
        (tradeRow e) = 0 := by
      rw [count_stable bs (tradeRow e) mid _ hmidrow, hst1rows, hcount0]
    have := @handleTrade_count_le bs
      (runIngest bs (handleTrade bs st0 e) mid) e (tradeRow e)
    omega
  · have hrows1 : allRows (handleTrade bs st0 e) =
        allRows st0 ++ [tradeRow e] := handleTrade_new_rows hdup0
    have hcount1 : (allRows (handleTrade bs st0 e)).count (tradeRow e) = 1 := by
      rw [hrows1, List.count_append, hcount0]
      simp
    have hcountmid : (allRows (runIngest bs (handleTrade bs st0 e)
        mid)).count (tradeRow e) = 1 := by
      rw [count_stable bs (tradeRow e) mid _ hmidrow, hcount1]
    have hseen1 : (handleTrade bs st0 e).seenTrades e.symbol =
        pushBounded dedupCapacity (st0.seenTrades e.symbol) (tradeKey e) := by
      rw [handleTrade_new_seen hdup0, Function.update_same]
    have hsuf1 : [tradeKey e] <:+ (handleTrade bs st0 e).seenTrades e.symbol := by
      rw [hseen1]
      exact suffix_singleton_pushBounded (by decide) _ _
    have hlen1 : ((handleTrade bs st0 e).seenTrades e.symbol).length ≤
        dedupCapacity := by
      rw [hseen1, pushBounded_eq_lastCap hlen0]
      exact lastCap_length_le _ _
    have hk := survive_mid bs e.symbol (tradeKey e) mid (handleTrade bs st0 e)
      hmidkey hlen1 ⟨[], hsuf1, by simp only [List.length_nil]; omega⟩
    rw [handleTrade_dup hk]
    exact le_of_eq hcountmid

theorem lastCap_of_length_le {α : Type} {cap : ℕ} {l : List α}
    (h : l.length ≤ cap) : lastCap cap l = l := by
  unfold lastCap
  rw [Nat.sub_eq_zero_of_le h, List.drop_zero]

theorem runIngest_fresh_trades (bs : ℕ) (s : String) :
    ∀ (fs : List TradeMessage) (st : IngestState),
      (∀ f ∈ fs, f.symbol = s) →
      ((fs.map tradeKey).Nodup) →
      (∀ f ∈ fs, tradeKey f ∉ st.seenTrades s) →
      (st.seenTrades s).length ≤ dedupCapacity →
      (runIngest bs st (fs.map IngestOp.trade)).seenTrades s =
        lastCap dedupCapacity (st.seenTrades s ++ fs.map tradeKey) ∧
      allRows (runIngest bs st (fs.map IngestOp.trade)) =
        allRows st ++ fs.map tradeRow := by
  intro fs
  induction fs with
  | nil =>
    intro st _ _ _ hlen
    constructor
    · simp only [List.map_nil, List.append_nil, lastCap_of_length_le hlen]
      rfl
    · simp only [List.map_nil, List.append_nil]
      rfl
  | cons f rest ih =>
    intro st hsym hnd hfresh hlen
    have hsymf : f.symbol = s := hsym f (List.mem_cons_self _ _)
    have hnotin : tradeKey f ∉ st.seenTrades f.symbol := by
      rw [hsymf]
      exact hfresh f (List.mem_cons_self _ _)
    have hstep : runIngest bs st ((f :: rest).map IngestOp.trade) =
        runIngest bs (handleTrade bs st f) (rest.map IngestOp.trade) := rfl
    have hseen1 : (handleTrade bs st f).seenTrades s =
        lastCap dedupCapacity (st.seenTrades s ++ [tradeKey f]) := by
      rw [handleTrade_new_seen hnotin, hsymf, Function.update_same,
        ← pushBounded_eq_lastCap hlen]
    have hrows1 : allRows (handleTrade bs st f) =
        allRows st ++ [tradeRow f] := handleTrade_new_rows hnotin
    have hndmap : ((f :: rest).map tradeKey).Nodup := hnd
    rw [List.map_cons, List.nodup_cons] at hndmap
    have hih := ih (handleTrade bs st f)
      (fun g hg => hsym g (List.mem_cons_of_mem _ hg))
      hndmap.2
      (by
        intro g hg hmem
        rw [hseen1] at hmem
        rcases List.mem_append.mp (mem_of_mem_lastCap hmem) with h | h
        · exact hfresh g (List.mem_cons_of_mem _ hg) h
        · rw [List.mem_singleton] at h
          exact hndmap.1 (h ▸ List.mem_map_of_mem tradeKey hg))
      (by rw [hseen1]; exact lastCap_length_le _ _)
    constructor
    · rw [hstep, hih.1, hseen1, lastCap_append_lastCap, List.append_assoc,
        List.singleton_append, ← List.map_cons]
    · rw [hstep, hih.2, hrows1, List.append_assoc, List.singleton_append,
        ← List.map_cons]

/-- The first of the two identical trade events of the C1 scenario:
`("B", tradeId 5, eventTime 100)`. -/
def evictE : TradeMessage :=
  { timestamp := 100, symbol := "B", price := 1, quantity := 1,
    tradeId := 5, tradeTime := 100 }

/-- 1000 distinct `B` trades — exactly the dedup deque's capacity — handled
between the two copies of `evictE`. -/
def evictFillers : List TradeMessage :=
  (List.range dedupCapacity).map fun i =>
    { timestamp := 200 + i, symbol := "B", price := 1, quantity := 1,
      tradeId := 1000 + i, tradeTime := 200 + i }

/-- The C1 event sequence: `evictE`, the 1000 fillers, `evictE` again, and a
final (timer/shutdown) flush. -/
def evictOps : List IngestOp :=
  IngestOp.trade evictE ::
    (evictFillers.map IngestOp.trade ++ [IngestOp.trade evictE, IngestOp.flush])

theorem evictFillers_key_ne {i : ℕ} :
    (("B", 1000 + i, 200 + i) : String × ℕ × ℕ) ≠ ("B", 5, 100) := by
  intro h
  rw [Prod.mk.injEq, Prod.mk.injEq] at h
  omega

/-- C1, counterexample.  The claim asserts at most one stored raw-tick row
per `(symbol, exchangeTradeId, eventTime)` for any order and batch
boundaries, enforced by a store unique constraint plus the dedup cache.
`raw_ticks` has no unique constraint (models.py lines 26-31 declare only
non-unique indexes, and the table stores no trade id), so the bounded deque
is the only mechanism — and processing the same trade twice with 1000
same-symbol trades in between evicts its key, and the duplicate is stored:
the final store holds the tick's row twice. -/
theorem C1_dedup_counterexample :
    ((runIngest 5000 initIngestState evictOps).rawStore).count
      (tradeRow evictE) = 2 ∧
    (∀ ix ∈ rawTicksIndexes, ix.2 = false) := by
  have hkey : tradeKey evictE = ("B", 5, 100) := rfl
  have h0 : tradeKey evictE ∉ initIngestState.seenTrades evictE.symbol := by
    simp [initIngestState]
  have hseen1 : (handleTrade 5000 initIngestState evictE).seenTrades "B" =
      [tradeKey evictE] := by
    rw [handleTrade_new_seen h0]
    have : evictE.symbol = "B" := rfl
    rw [this, Function.update_same]
    simp [initIngestState, pushBounded, dedupCapacity]
  have hrows1 : allRows (handleTrade 5000 initIngestState evictE) =
      [tradeRow evictE] := by
    rw [handleTrade_new_rows h0]
    rfl
  have hlen1 : ((handleTrade 5000 initIngestState evictE).seenTrades
      "B").length ≤ dedupCapacity := by
    rw [hseen1]
    decide
  have hchar := runIngest_fresh_trades 5000 "B" evictFillers
    (handleTrade 5000 initIngestState evictE)
    (by
      intro f hf
      obtain ⟨i, _, rfl⟩ := List.mem_map.mp hf
      rfl)
    (by
      unfold evictFillers
      rw [List.map_map]
      refine List.Nodup.map ?_ (List.nodup_range _)
      intro i j hij
      simp only [Function.comp, tradeKey, Prod.mk.injEq] at hij
      omega)
    (by
      intro f hf
      obtain ⟨i, _, rfl⟩ := List.mem_map.mp hf
      rw [hseen1, hkey]
      simp only [List.mem_singleton]
      exact evictFillers_key_ne)
    hlen1
  have hlenkeys : (evictFillers.map tradeKey).length = dedupCapacity := by
    simp [evictFillers]
  have hseen2 : (runIngest 5000 (handleTrade 5000 initIngestState evictE)
      (evictFillers.map IngestOp.trade)).seenTrades "B" =
      evictFillers.map tradeKey := by
    rw [hchar.1, hseen1]
    unfold lastCap
    rw [List.singleton_append, List.length_cons, hlenkeys,
      Nat.succ_sub (le_refl _), Nat.sub_self, List.drop_succ_cons,
      List.drop_zero]
  have hnotin2 : tradeKey evictE ∉
      (runIngest 5000 (handleTrade 5000 initIngestState evictE)
        (evictFillers.map IngestOp.trade)).seenTrades evictE.symbol := by
    have : evictE.symbol = "B" := rfl
    rw [this, hseen2, hkey]
    intro hmem
    obtain ⟨f, hf, hfk⟩ := List.mem_map.mp hmem
    obtain ⟨i, _, rfl⟩ := List.mem_map.mp hf
    exact evictFillers_key_ne hfk
  have hrows3 : allRows (handleTrade 5000
      (runIngest 5000 (handleTrade 5000 initIngestState evictE)
        (evictFillers.map IngestOp.trade)) evictE) =
      [tradeRow evictE] ++ evictFillers.map tradeRow ++ [tradeRow evictE] := by
    rw [handleTrade_new_rows hnotin2, hchar.2, hrows1]
  have hdecomp : runIngest 5000 initIngestState evictOps =
      flushBatch (handleTrade 5000
        (runIngest 5000 (handleTrade 5000 initIngestState evictE)
          (evictFillers.map IngestOp.trade)) evictE) := by
    unfold evictOps runIngest
    rw [List.foldl_cons, List.foldl_append, List.foldl_cons, List.foldl_cons,
      List.foldl_nil]
    rfl
  constructor
  · rw [hdecomp]
    have hfr : (flushBatch (handleTrade 5000
        (runIngest 5000 (handleTrade 5000 initIngestState evictE)
          (evictFillers.map IngestOp.trade)) evictE)).rawStore =
        allRows (handleTrade 5000
          (runIngest 5000 (handleTrade 5000 initIngestState evictE)
            (evictFillers.map IngestOp.trade)) evictE) := by
      unfold flushBatch allRows
      rfl
    rw [hfr, hrows3, List.count_append, List.count_append]
    have hmid : (evictFillers.map tradeRow).count (tradeRow evictE) = 0 := by
      rw [List.count_eq_zero]
      intro hmem
      obtain ⟨f, hf, hfk⟩ := List.mem_map.mp hmem
      obtain ⟨i, _, rfl⟩ := List.mem_map.mp hf
      have h1 : (200 : ℕ) + i = 100 := congrArg RawTick.timestamp hfk
      omega
    rw [hmid]
    simp
  · decide

/-- A single intervening `B` trade with a different trade id, for the C1
witness. -/
def c1MidTrade : TradeMessage :=
  { timestamp := 300, symbol := "B", price := 1, quantity := 1,
    tradeId := 7, tradeTime := 300 }

/-- C1, witness for the amended theorem: from the initial state, handling
`evictE`, one other `B` trade, then `evictE` again (1 intervening `B` trade
≤ 999) leaves at most one copy of the tick's row buffered or stored. -/
theorem C1_dedup_amended_witness :
    (allRows initIngestState).count (tradeRow evictE) = 0 ∧
    (([IngestOp.trade c1MidTrade].countP (isSymTrade evictE.symbol)) + 1 ≤
      dedupCapacity) ∧
    (allRows (runIngest 100 initIngestState
      (IngestOp.trade evictE ::
        ([IngestOp.trade c1MidTrade] ++ [IngestOp.trade evictE])))).count
      (tradeRow evictE) ≤ 1 := by
  refine ⟨rfl, by decide, ?_⟩
  refine C1_dedup_amended 100 initIngestState evictE [IngestOp.trade c1MidTrade]
    rfl (by decide) ?_ ?_ (by decide)
  · intro t' ht'
    simp only [List.mem_singleton, IngestOp.trade.injEq] at ht'
    subst ht'
    decide
  · intro t' ht'
    simp only [List.mem_singleton, IngestOp.trade.injEq] at ht'
    subst ht'
    intro h
    have h1 : (300 : ℕ) = 100 := congrArg RawTick.timestamp h
    omega
